import Mathlib

/-!
Shallow embedding of the rest_framework_mongoengine serializers module
(MealMatch/Templates/rest_framework_mongoengine/serializers.py).

The module adapts mongoengine document models to DRF model serializers.
Sibling modules of the package (utils.py, fields.py, validators.py) are not
part of the sources; the values their functions produce (field-info
structures, derived keyword arguments, validator objects) are therefore
carried as data inside the model structures, as noted on each definition.
-/

set_option maxRecDepth 4000

namespace RfMongo

/-- Association list lookup, modelling Python dict lookup `d[k]`
(first binding wins; Python dicts have unique keys). -/
def assocFind {α : Type} : List (String × α) → String → Option α
  | [], _ => none
  | (k1, a) :: t, k => if k1 == k then some a else assocFind t k

/-- Python `k in d` membership test on a dict modelled as an association list. -/
def assocHas {α : Type} (l : List (String × α)) (k : String) : Bool :=
  (assocFind l k).isSome

/-- Substring test on character lists: `p` occurs contiguously inside `l`. -/
def containsAux : List Char → List Char → Bool
  | [], p => p.isPrefixOf ([] : List Char)
  | c :: t, p => p.isPrefixOf (c :: t) || containsAux t p

/-- Python substring containment `pat in s`. -/
def strContains (s pat : String) : Bool :=
  containsAux s.data pat.data

/-- Validator objects synthesized by the uniqueness-constraint deriver
(UniqueValidator and UniqueTogetherValidator from the package validators
module, absent from the sources; modelled by the data they are built from:
the queryset owner model and, for together, the tuple of field names). -/
inductive Validator where
  | unique (model : String)
  | uniqueTogether (model : String) (fields : List String)
deriving DecidableEq, Repr

/-- Values stored in keyword-argument dicts.  Only the shapes the adapter
code inspects are distinguished: booleans (truthiness of allow_null),
None (the default written by build_bottom_embedded_field), validator lists,
and otherwise opaque payloads. -/
inductive KVal where
  | kbool (b : Bool)
  | knone
  | knat (n : Nat)
  | kstr (s : String)
  | kvalidators (vs : List Validator)
deriving DecidableEq, Repr

/-- A Python kwargs dict: keys are unique, insertion-ordered. -/
abbrev Kwargs := List (String × KVal)

/-- Python dict key membership for kwargs. -/
def hasKey (kw : Kwargs) (k : String) : Bool := assocHas kw k

/-- Python `d.pop(k, None)`: remove the binding for `k` if present. -/
def popKey (kw : Kwargs) (k : String) : Kwargs :=
  kw.filter (fun p => p.1 != k)

/-- Python `d.get(k, dflt)`. -/
def kwGet (kw : Kwargs) (k : String) (dflt : KVal) : KVal :=
  match assocFind kw k with
  | some v => v
  | none => dflt

/-- Python `d[k] = v`: overwrite in place or append. -/
def setKey (kw : Kwargs) (k : String) (v : KVal) : Kwargs :=
  if hasKey kw k then kw.map (fun p => cond (p.1 == k) (k, v) p)
  else kw ++ [(k, v)]

/-- Python truthiness of a kwargs value. -/
def truthy : KVal → Bool
  | .kbool b => b
  | .knone => false
  | .knat n => n != 0
  | .kstr s => s != ""
  | .kvalidators vs => !vs.isEmpty

/-- The mongoengine model-field classes that appear as keys of
`DocumentSerializer.serializer_field_mapping`, plus the two compound classes
(ListField, DictField) and a catch-all for any other BaseField subclass. -/
inductive MeType where
  | StringField | URLField | EmailField | IntField | LongField | FloatField
  | DecimalField | BooleanField | DateTimeField | ComplexDateTimeField
  | ObjectIdField | FileField | ImageField | SequenceField | UUIDField
  | GeoPointField | GeoJsonBaseField | DynamicField
  | ListFieldT | DictFieldT | OtherBaseField
deriving DecidableEq, Repr

/-- Serializer-field classes that the adapter can return from its build_*
methods.  Nested serializer classes carry their generated Meta attributes
(model and remaining depth), since that is all the adapter writes into them. -/
inductive FieldClass where
  | CharField | URLField | EmailField | IntegerField | FloatField
  | DecimalField | BooleanField | NullBooleanField | DateTimeField
  | ObjectIdField | FileField | ImageField | UUIDField | GeoPointField
  | GeoJSONField | DynamicField | DocumentField | ChoiceField | RegexField
  | ListField | DictField | HiddenField
  | ReferenceField | GenericReferenceField | GenericEmbeddedDocumentField
  | ReadOnlyField
  | UnknownField
  | NestedReferenceSerializer (model : Option String) (depth : Nat)
  | EmbeddedSerializer (model : Option String) (depth_embedding : Nat)
deriving DecidableEq, Repr

/-- `DocumentSerializer.serializer_field_mapping` (lines 97-117), resolved
through ClassLookupDict: each listed mongoengine class maps to its entry,
any other BaseField subclass falls through to the BaseField entry
(drfm DocumentField).  The compound classes resolve through BaseField too,
but build_standard_field is never reached for them. -/
def serializer_field_mapping : MeType → FieldClass
  | .StringField => .CharField
  | .URLField => .URLField
  | .EmailField => .EmailField
  | .IntField => .IntegerField
  | .LongField => .IntegerField
  | .FloatField => .FloatField
  | .DecimalField => .DecimalField
  | .BooleanField => .BooleanField
  | .DateTimeField => .DateTimeField
  | .ComplexDateTimeField => .DateTimeField
  | .ObjectIdField => .ObjectIdField
  | .FileField => .FileField
  | .ImageField => .ImageField
  | .SequenceField => .IntegerField
  | .UUIDField => .UUIDField
  | .GeoPointField => .GeoPointField
  | .GeoJsonBaseField => .GeoJSONField
  | .DynamicField => .DynamicField
  | .ListFieldT => .DocumentField
  | .DictFieldT => .DocumentField
  | .OtherBaseField => .DocumentField

/-- Subclass relation between the serializer-field classes, restricted to
the pairs the adapter tests.  Modelled from the spec: the DRF hierarchy has
URLField, EmailField and RegexField extend CharField; the package fields
module (absent from the sources) has DynamicField and
GenericEmbeddedDocumentField extend DocumentField. -/
def isSubclassOf (c d : FieldClass) : Bool :=
  c == d ||
  match c, d with
  | .URLField, .CharField => true
  | .EmailField, .CharField => true
  | .RegexField, .CharField => true
  | .DynamicField, .DocumentField => true
  | .GenericEmbeddedDocumentField, .DocumentField => true
  | _, _ => false

/-- A mongoengine model field as the adapter sees it.  Modelled from the
spec: get_field_kwargs (utils module, absent from the sources) is the pure
function mapping the field metadata to serializer-field keyword arguments;
its output is carried here as `derivedKwargs`.  `dfault` models the field
default used by the uniqueness deriver (`has_default` holds when it is
present). -/
structure ModelField where
  tp : MeType
  derivedKwargs : Kwargs
  dfault : Option KVal
deriving DecidableEq, Repr

/-- `COMPOUND_FIELD_TYPES` membership.  Modelled from the spec: the
compound model-field types are the list and dict fields. -/
def isCompound (t : MeType) : Bool :=
  t == .ListFieldT || t == .DictFieldT

/-- Relation info entries of the extracted field info (references and
embedded).  Modelled from the spec: the field-info extractor records the
related model (none for generic relations); the four relation kwargs
builders of the utils module (absent from the sources) are carried as the
data they would return. -/
structure RelationInfo where
  related_model : Option String
  relKwargs : Kwargs
  nestedRelKwargs : Kwargs
  genericEmbKwargs : Kwargs
  nestedEmbKwargs : Kwargs
deriving DecidableEq, Repr

/-- The structured description produced by get_field_info (utils module,
absent from the sources).  Modelled from the spec: names, types, nested
model class and cardinality of the declared fields, references and embedded
fields; `fields_and_pk` additionally contains the primary key. -/
structure FieldInfo where
  pkName : String
  fields_and_pk : List (String × ModelField)
  fields : List (String × ModelField)
  references : List (String × RelationInfo)
  embedded : List (String × RelationInfo)
deriving DecidableEq, Repr

/-- All field names known to the extracted info (used for the termination
measure of the .child recursion in build_field). -/
def infoNames (info : FieldInfo) : List String :=
  info.fields.map (fun p => p.1) ++ info.references.map (fun p => p.1) ++
    info.embedded.map (fun p => p.1)

/-- Length of the longest name known to the info. -/
def maxNameLen (info : FieldInfo) : Nat :=
  (infoNames info).foldr (fun s m => max s.length m) 0

/-- The result of building one serializer field: the field class, its
keyword arguments, and, for compound fields, the child field instance that
the code stores under the child keyword argument. -/
inductive BuiltField where
  | mk (cls : FieldClass) (kwargs : Kwargs) (child : Option BuiltField)

def BuiltField.cls : BuiltField → FieldClass
  | .mk c _ _ => c

def BuiltField.kwargs : BuiltField → Kwargs
  | .mk _ kw _ => kw

def BuiltField.child : BuiltField → Option BuiltField
  | .mk _ _ ch => ch

/-- `DocumentSerializer.build_standard_field` valid kwargs for choice
fields (lines 402-408). -/
def choice_valid_kwargs : List String :=
  ["read_only", "write_only", "required", "default", "initial", "source",
   "label", "help_text", "style", "error_messages", "validators",
   "allow_null", "allow_blank", "choices"]

/-- build_standard_field, step of lines 395-411: fields with choices get
coerced into the choice field class and kwargs outside the valid set are
stripped. -/
def bsf_step1 (mf : ModelField) : FieldClass × Kwargs :=
  if hasKey mf.derivedKwargs "choices" then
    (FieldClass.ChoiceField,
      mf.derivedKwargs.filter (fun p => choice_valid_kwargs.contains p.1))
  else (serializer_field_mapping mf.tp, mf.derivedKwargs)

/-- build_standard_field, step of lines 413-414: a regex kwarg switches
the class to RegexField. -/
def bsf_cls2 (mf : ModelField) : FieldClass :=
  if hasKey (bsf_step1 mf).2 "regex" then FieldClass.RegexField
  else (bsf_step1 mf).1

/-- build_standard_field, step of lines 416-420: model_field is dropped
unless the class is a DocumentField subclass. -/
def bsf_kw3 (mf : ModelField) : Kwargs :=
  if !(isSubclassOf (bsf_cls2 mf) .DocumentField) then
    popKey (bsf_step1 mf).2 "model_field"
  else (bsf_step1 mf).2

/-- build_standard_field, step of lines 422-424: allow_blank is dropped
unless the class subclasses CharField or ChoiceField. -/
def bsf_kw4 (mf : ModelField) : Kwargs :=
  if !(isSubclassOf (bsf_cls2 mf) .CharField) &&
      !(isSubclassOf (bsf_cls2 mf) .ChoiceField) then
    popKey (bsf_kw3 mf) "allow_blank"
  else bsf_kw3 mf

/-- `DocumentSerializer.build_standard_field` (lines 389-431), assembled
from the staged kwarg transformations above, ending with the
NullBooleanField coercion of lines 426-429. -/
def build_standard_field (_field_name : String) (mf : ModelField) :
    FieldClass × Kwargs :=
  if bsf_cls2 mf == FieldClass.BooleanField &&
      truthy (kwGet (bsf_kw4 mf) "allow_null" (.kbool false)) then
    (.NullBooleanField, popKey (popKey (bsf_kw4 mf) "allow_null") "default")
  else (bsf_cls2 mf, bsf_kw4 mf)

/-- `DocumentSerializer.build_compound_field` (lines 433-447): ListField
for a mongoengine list field, the package DictField for a dict field
(otherwise the DRF unknown-field fallback), with the derived kwargs minus
model_field and the child field attached when one was built. -/
def build_compound_field (_field_name : String) (model_field : ModelField)
    (child_field : Option BuiltField) : BuiltField :=
  if model_field.tp == .ListFieldT then
    .mk .ListField (popKey model_field.derivedKwargs "model_field") child_field
  else if model_field.tp == .DictFieldT then
    .mk .DictField (popKey model_field.derivedKwargs "model_field") child_field
  else
    .mk .UnknownField [] none

/-- `DocumentSerializer.build_reference_field` (lines 449-459): a generic
reference field when there is no related model (with model_field removed
unless the class subclasses DocumentField), a flat ReferenceField
otherwise. -/
def build_reference_field (_field_name : String) (relation_info : RelationInfo)
    (_nested_depth : Nat) : BuiltField :=
  match relation_info.related_model with
  | none =>
    let kw :=
      if !(isSubclassOf .GenericReferenceField .DocumentField) then
        popKey relation_info.relKwargs "model_field"
      else relation_info.relKwargs
    .mk .GenericReferenceField kw none
  | some _ => .mk .ReferenceField relation_info.relKwargs none

/-- `DocumentSerializer.build_nested_reference_field` (lines 461-472): a
fresh nested serializer class whose Meta has the related model and depth
one less than the current nested depth. -/
def build_nested_reference_field (_field_name : String)
    (relation_info : RelationInfo) (nested_depth : Nat) : BuiltField :=
  .mk (.NestedReferenceSerializer relation_info.related_model (nested_depth - 1))
    relation_info.nestedRelKwargs none

/-- `DocumentSerializer.build_generic_embedded_field` (lines 474-477). -/
def build_generic_embedded_field (_field_name : String)
    (relation_info : RelationInfo) (_embedded_depth : Nat) : BuiltField :=
  .mk .GenericEmbeddedDocumentField relation_info.genericEmbKwargs none

/-- `DocumentSerializer.build_nested_embedded_field` (lines 479-490): a
fresh embedded serializer class whose Meta has the related model and
depth_embedding one less than the current embedded depth. -/
def build_nested_embedded_field (_field_name : String)
    (relation_info : RelationInfo) (embedded_depth : Nat) : BuiltField :=
  .mk (.EmbeddedSerializer relation_info.related_model (embedded_depth - 1))
    relation_info.nestedEmbKwargs none

/-- `DocumentSerializer.build_bottom_embedded_field` (lines 492-496): the
hidden placeholder class with the nested embedded kwargs and default set to
None. -/
def build_bottom_embedded_field (_field_name : String)
    (relation_info : RelationInfo) (_embedded_depth : Nat) : BuiltField :=
  .mk .HiddenField (setKey relation_info.nestedEmbKwargs "default" .knone) none

theorem assocFind_mem {α : Type} (l : List (String × α)) (k : String) (a : α)
    (h : assocFind l k = some a) : k ∈ l.map (fun p => p.1) := by
  induction l with
  | nil => simp [assocFind] at h
  | cons hd t ih =>
    obtain ⟨k1, a1⟩ := hd
    by_cases hk : k1 = k
    · subst hk; simp
    · simp only [assocFind, beq_iff_eq, hk, if_false] at h
      simpa using Or.inr (ih h)

theorem len_le_foldrMax (l : List String) (s : String) (h : s ∈ l) :
    s.length ≤ l.foldr (fun t m => max t.length m) 0 := by
  induction l with
  | nil => simp at h
  | cons hd t ih =>
    rcases List.mem_cons.mp h with h1 | h2
    · subst h1; exact Nat.le_max_left _ _
    · exact Nat.le_trans (ih h2) (Nat.le_max_right _ _)

theorem len_le_maxNameLen (info : FieldInfo) (s : String)
    (h : s ∈ infoNames info) : s.length ≤ maxNameLen info :=
  len_le_foldrMax _ _ h

/-- `DocumentSerializer.build_field` (lines 354-387): dispatch on the
extracted info.  A name among fields_and_pk is built as a compound field
(recursing into the .child entry when one exists in the info) when the
model field is compound, and as a standard field otherwise; a name among
the references becomes a nested reference serializer when the nested depth
is non-zero and a related model exists, and a flat reference field
otherwise; a name among the embedded becomes a generic embedded field when
there is no related model, a nested embedded serializer for non-zero
embedded depth and the bottom embedded field at depth zero; any other name
becomes a property field when the model class has such an attribute
(DRF build_property_field, modelled as a read-only field) and the unknown
field outcome otherwise (DRF build_unknown_field).  `model_attrs` models
the attribute names of the model class for the hasattr test. -/
def build_field (info : FieldInfo) (model_attrs : List String)
    (field_name : String) (nested_depth embedded_depth : Nat) : BuiltField :=
  match assocFind info.fields_and_pk field_name with
  | some model_field =>
    if isCompound model_field.tp then
      let child_name := field_name ++ ".child"
      if h : assocHas info.fields child_name || assocHas info.embedded child_name ||
          assocHas info.references child_name then
        let child := build_field info model_attrs child_name nested_depth embedded_depth
        build_compound_field field_name model_field (some child)
      else
        build_compound_field field_name model_field none
    else
      let p := build_standard_field field_name model_field
      .mk p.1 p.2 none
  | none =>
    match assocFind info.references field_name with
    | some relation_info =>
      if nested_depth != 0 && relation_info.related_model.isSome then
        build_nested_reference_field field_name relation_info nested_depth
      else
        build_reference_field field_name relation_info nested_depth
    | none =>
      match assocFind info.embedded field_name with
      | some relation_info =>
        if relation_info.related_model.isNone then
          build_generic_embedded_field field_name relation_info embedded_depth
        else if embedded_depth != 0 then
          build_nested_embedded_field field_name relation_info embedded_depth
        else
          build_bottom_embedded_field field_name relation_info embedded_depth
      | none =>
        if model_attrs.contains field_name then
          .mk .ReadOnlyField [] none
        else
          .mk .UnknownField [] none
termination_by maxNameLen info + 1 - field_name.length
decreasing_by
  have h6 : ".child".length = 6 := rfl
  have hlen : (field_name ++ ".child").length = field_name.length + 6 := by
    rw [String.length_append, h6]
  have hmem : (field_name ++ ".child") ∈ infoNames info := by
    simp only [assocHas, Bool.or_eq_true, Option.isSome_iff_exists] at h
    simp only [infoNames, List.mem_append]
    rcases h with (⟨a, ha⟩ | ⟨a, ha⟩) | ⟨a, ha⟩ <;>
      · have := assocFind_mem _ _ _ ha
        tauto
  have hle := len_le_maxNameLen info _ hmem
  rw [hlen] at hle
  omega

/-! ## recursive_save (lines 211-264) -/

/-- Values flowing through validated data and document instances: opaque
scalars, Python lists, Python dicts, and mongoengine (embedded) document
instances (which recursive_save produces for nested data). -/
inductive Val where
  | atom (n : Nat)
  | vlist (xs : List Val)
  | vdict (entries : List (String × Val))
  | vdoc (attrs : List (String × Val))

/-- Document attributes: the named attributes of a model instance. -/
abbrev Attrs := List (String × Val)

/-- The serializer fields of a bound serializer, as recursive_save
inspects them: an EmbeddedDocumentSerializer with its own fields, a
ListSerializer or ListField with a child, the package DictField with a
child, or any other field. -/
inductive SerField where
  | embedded (flds : List (String × SerField))
  | listOf (child : SerField)
  | dictOf (child : SerField)
  | plain

/-- `DocumentSerializer._saving_instances` (line 142). -/
def DocumentSerializer_saving : Bool := true

/-- `EmbeddedDocumentSerializer._saving_instances` (line 577). -/
def EmbeddedDocumentSerializer_saving : Bool := false

/-- Python `getattr(instance, k)` on a document instance. -/
def getAttr (d : Attrs) (k : String) : Option Val := assocFind d k

/-- Python `setattr(instance, k, v)` on a document instance. -/
def setAttr (d : Attrs) (k : String) (v : Val) : Attrs :=
  if assocHas d k then d.map (fun p => cond (p.1 == k) (k, v) p)
  else d ++ [(k, v)]

/-- The setattr loop of recursive_save (lines 258-259). -/
def setAttrs (d : Attrs) (me : Attrs) : Attrs :=
  me.foldl (fun acc p => setAttr acc p.1 p.2) d

theorem assocFind_sizeOf {α : Type} [SizeOf α] (l : List (String × α))
    (k : String) (a : α) (h : assocFind l k = some a) : sizeOf a < sizeOf l := by
  induction l with
  | nil => simp [assocFind] at h
  | cons hd t ih =>
    obtain ⟨k1, a1⟩ := hd
    by_cases hk : k1 = k
    · subst hk
      simp only [assocFind, beq_self_eq_true, if_true, Option.some.injEq] at h
      subst h
      simp only [List.cons.sizeOf_spec, Prod.mk.sizeOf_spec]
      omega
    · simp only [assocFind, beq_iff_eq, hk, if_false] at h
      have := ih h
      simp only [List.cons.sizeOf_spec, Prod.mk.sizeOf_spec]
      omega

mutual

/-- Models calling `field.recursive_save(value)` on an
EmbeddedDocumentSerializer field (no instance argument, and the class has
`_saving_instances = False`): the value must be a dict (iterating items of
anything else raises), the result is the constructed embedded document
instance; the saved-instance log of the nested call is propagated. -/
def embRecSave (cflds : List (String × SerField)) (v : Val) :
    Option (Val × List Attrs) :=
  match v with
  | .vdict es =>
    match recursiveSaveFn cflds EmbeddedDocumentSerializer_saving es none with
    | some r => some (.vdoc r.1, r.2)
    | none => none
  | _ => none
termination_by (sizeOf cflds, 3, 0)

/-- The loop over a list value for a ListSerializer/ListField whose child
is an EmbeddedDocumentSerializer (lines 237-239): each element is saved
recursively in order. -/
def convertList (cflds : List (String × SerField)) (xs : List Val) :
    Option (List Val × List Attrs) :=
  match xs with
  | [] => some ([], [])
  | x :: t =>
    match embRecSave cflds x, convertList cflds t with
    | some r1, some r2 => some (r1.1 :: r2.1, r1.2 ++ r2.2)
    | _, _ => none
termination_by (sizeOf cflds, 4, xs.length)

/-- The loop over a dict value for a DictField whose child is an
EmbeddedDocumentSerializer (lines 246-248): keys are kept, each value is
saved recursively. -/
def convertDict (cflds : List (String × SerField)) (es : List (String × Val)) :
    Option (List (String × Val) × List Attrs) :=
  match es with
  | [] => some ([], [])
  | e :: t =>
    match embRecSave cflds e.2, convertDict cflds t with
    | some r1, some r2 => some ((e.1, r1.1) :: r2.1, r1.2 ++ r2.2)
    | _, _ => none
termination_by (sizeOf cflds, 4, es.length)

/-- The body of the recursive_save loop for one key (lines 224-252):
fields missing from the serializer (KeyError) and fields of any
non-nesting kind pass the value through; EmbeddedDocumentSerializer
fields, list fields with embedded child and dict fields with embedded
child are saved recursively. -/
def convertEntry (flds : List (String × SerField)) (k : String) (v : Val) :
    Option (Val × List Attrs) :=
  match hf : assocFind flds k with
  | none => some (v, [])
  | some (.embedded cflds) =>
    have hsz : sizeOf cflds < sizeOf flds := by
      have h1 := assocFind_sizeOf _ _ _ hf
      simp only [SerField.embedded.sizeOf_spec] at h1
      omega
    embRecSave cflds v
  | some (.listOf (.embedded cflds)) =>
    have hsz : sizeOf cflds < sizeOf flds := by
      have h1 := assocFind_sizeOf _ _ _ hf
      simp only [SerField.listOf.sizeOf_spec, SerField.embedded.sizeOf_spec] at h1
      omega
    match v with
    | .vlist xs =>
      match convertList cflds xs with
      | some r => some (.vlist r.1, r.2)
      | none => none
    | _ => none
  | some (.listOf _) => some (v, [])
  | some (.dictOf (.embedded cflds)) =>
    have hsz : sizeOf cflds < sizeOf flds := by
      have h1 := assocFind_sizeOf _ _ _ hf
      simp only [SerField.dictOf.sizeOf_spec, SerField.embedded.sizeOf_spec] at h1
      omega
    match v with
    | .vdict es =>
      match convertDict cflds es with
      | some r => some (.vdict r.1, r.2)
      | none => none
    | _ => none
  | some (.dictOf _) => some (v, [])
  | some .plain => some (v, [])
termination_by (sizeOf flds, 0, 0)

/-- The me_data construction loop of recursive_save (lines 222-252). -/
def meDataEntries (flds : List (String × SerField))
    (validated : List (String × Val)) :
    Option (List (String × Val) × List Attrs) :=
  match validated with
  | [] => some ([], [])
  | (k, v) :: rest =>
    match convertEntry flds k v, meDataEntries flds rest with
    | some r1, some r2 => some ((k, r1.1) :: r2.1, r1.2 ++ r2.2)
    | _, _ => none
termination_by (sizeOf flds, 1, validated.length)

/-- `DocumentSerializer.recursive_save` (lines 211-264): convert the
validated data to me_data, then construct a fresh model instance from it
or assign its entries onto the given instance, save when
`_saving_instances` holds, and return the instance.  The second component
logs every instance on which save was called, in order. -/
def recursiveSaveFn (flds : List (String × SerField)) (saving : Bool)
    (validated : List (String × Val)) (instOpt : Option Attrs) :
    Option (Attrs × List Attrs) :=
  match meDataEntries flds validated with
  | none => none
  | some r =>
    let inst : Attrs :=
      match instOpt with
      | none => r.1
      | some i0 => setAttrs i0 r.1
    some (inst, r.2 ++ (if saving then [inst] else []))
termination_by (sizeOf flds, 2, 0)

end

theorem convertEntry_none (flds : List (String × SerField)) (k : String) (v : Val)
    (h : assocFind flds k = none) : convertEntry flds k v = some (v, []) := by
  rw [convertEntry]
  split <;> rename_i heq <;> rw [h] at heq <;> try rfl
  all_goals cases heq

theorem convertEntry_embedded (flds : List (String × SerField)) (k : String) (v : Val)
    (cflds : List (String × SerField))
    (h : assocFind flds k = some (.embedded cflds)) :
    convertEntry flds k v = embRecSave cflds v := by
  rw [convertEntry]
  split <;> rename_i heq <;> rw [h] at heq <;> simp_all

theorem convertEntry_listEmbAny (flds : List (String × SerField)) (k : String)
    (v : Val) (cflds : List (String × SerField))
    (h : assocFind flds k = some (.listOf (.embedded cflds))) :
    convertEntry flds k v =
      (match v with
       | .vlist xs =>
         (match convertList cflds xs with
          | some r => some (.vlist r.1, r.2)
          | none => none)
       | _ => none) := by
  rw [convertEntry]
  split <;> rename_i heq <;> rw [h] at heq <;> simp_all
  all_goals (rename_i child2 hno; exact absurd heq.symm (hno _))

theorem convertEntry_listEmb (flds : List (String × SerField)) (k : String)
    (xs : List Val) (cflds : List (String × SerField))
    (h : assocFind flds k = some (.listOf (.embedded cflds))) :
    convertEntry flds k (.vlist xs) =
      (match convertList cflds xs with
       | some r => some (.vlist r.1, r.2)
       | none => none) := by
  rw [convertEntry_listEmbAny flds k (.vlist xs) cflds h]

theorem convertEntry_listEmb_nonlist (flds : List (String × SerField)) (k : String)
    (v : Val) (cflds : List (String × SerField))
    (h : assocFind flds k = some (.listOf (.embedded cflds)))
    (hv : ∀ xs, v ≠ .vlist xs) :
    convertEntry flds k v = none := by
  rw [convertEntry_listEmbAny flds k v cflds h]
  rcases v with n | xs | es | a
  · rfl
  · exact absurd rfl (hv xs)
  · rfl
  · rfl

theorem convertEntry_listOther (flds : List (String × SerField)) (k : String) (v : Val)
    (c : SerField) (hno : ∀ cflds, c ≠ .embedded cflds)
    (h : assocFind flds k = some (.listOf c)) :
    convertEntry flds k v = some (v, []) := by
  rw [convertEntry]
  split <;> rename_i heq <;> rw [h] at heq <;> simp_all

theorem convertEntry_dictEmbAny (flds : List (String × SerField)) (k : String)
    (v : Val) (cflds : List (String × SerField))
    (h : assocFind flds k = some (.dictOf (.embedded cflds))) :
    convertEntry flds k v =
      (match v with
       | .vdict es =>
         (match convertDict cflds es with
          | some r => some (.vdict r.1, r.2)
          | none => none)
       | _ => none) := by
  rw [convertEntry]
  split <;> rename_i heq <;> rw [h] at heq <;> simp_all
  all_goals (rename_i child2 hno; exact absurd heq.symm (hno _))

theorem convertEntry_dictEmb (flds : List (String × SerField)) (k : String)
    (es : List (String × Val)) (cflds : List (String × SerField))
    (h : assocFind flds k = some (.dictOf (.embedded cflds))) :
    convertEntry flds k (.vdict es) =
      (match convertDict cflds es with
       | some r => some (.vdict r.1, r.2)
       | none => none) := by
  rw [convertEntry_dictEmbAny flds k (.vdict es) cflds h]

theorem convertEntry_dictEmb_nondict (flds : List (String × SerField)) (k : String)
    (v : Val) (cflds : List (String × SerField))
    (h : assocFind flds k = some (.dictOf (.embedded cflds)))
    (hv : ∀ es, v ≠ .vdict es) :
    convertEntry flds k v = none := by
  rw [convertEntry_dictEmbAny flds k v cflds h]
  rcases v with n | xs | es | a
  · rfl
  · rfl
  · exact absurd rfl (hv es)
  · rfl

theorem convertEntry_dictOther (flds : List (String × SerField)) (k : String) (v : Val)
    (c : SerField) (hno : ∀ cflds, c ≠ .embedded cflds)
    (h : assocFind flds k = some (.dictOf c)) :
    convertEntry flds k v = some (v, []) := by
  rw [convertEntry]
  split <;> rename_i heq <;> rw [h] at heq <;> simp_all

theorem convertEntry_plain (flds : List (String × SerField)) (k : String) (v : Val)
    (h : assocFind flds k = some .plain) :
    convertEntry flds k v = some (v, []) := by
  rw [convertEntry]
  split <;> rename_i heq <;> rw [h] at heq <;> simp_all

/-- Nested recursive_save calls never log a save: every serializer the
me_data loop recurses into is an EmbeddedDocumentSerializer, whose class
sets `_saving_instances = False`. -/
theorem meDataEntries_saves (flds : List (String × SerField))
    (validated : List (String × Val)) :
    ∀ r, meDataEntries flds validated = some r → r.2 = [] := by
  apply meDataEntries.induct
    (fun cflds v => ∀ r, embRecSave cflds v = some r → r.2 = [])
    (fun flds saving validated instOpt =>
      ∀ r, recursiveSaveFn flds saving validated instOpt = some r →
        r.2 = (if saving then [r.1] else []))
    (fun flds validated =>
      ∀ r, meDataEntries flds validated = some r → r.2 = [])
    (fun flds k v => ∀ r, convertEntry flds k v = some r → r.2 = [])
    (fun cflds es => ∀ r, convertDict cflds es = some r → r.2 = [])
    (fun cflds xs => ∀ r, convertList cflds xs = some r → r.2 = [])
  case _ =>
    intro cflds es r0 hrs ih r hr
    simp only [embRecSave, hrs, Option.some.injEq] at hr
    subst hr
    have h0 := ih r0 hrs
    simpa [EmbeddedDocumentSerializer_saving] using h0
  case _ =>
    intro cflds es hrs _ r hr
    simp only [embRecSave, hrs] at hr
    exact Option.noConfusion hr
  case _ =>
    intro cflds v hnd r hr
    rcases v with n | xs | es | a
    · simp only [embRecSave] at hr
      exact Option.noConfusion hr
    · simp only [embRecSave] at hr
      exact Option.noConfusion hr
    · exact absurd rfl (hnd es)
    · simp only [embRecSave] at hr
      exact Option.noConfusion hr
  case _ =>
    intro flds saving validated instOpt hmd _ r hr
    simp only [recursiveSaveFn, hmd] at hr
    exact Option.noConfusion hr
  case _ =>
    intro flds saving validated instOpt r0 hmd ih r hr
    simp only [recursiveSaveFn, hmd, Option.some.injEq] at hr
    have h0 := ih r0 hmd
    subst hr
    simp [h0]
  case _ =>
    intro flds r hr
    simp only [meDataEntries, Option.some.injEq] at hr
    subst hr
    rfl
  case _ =>
    intro flds k v rest r1 r2 hrest hk ih1 ih2 r hr
    simp only [meDataEntries, hk, hrest, Option.some.injEq] at hr
    subst hr
    simp [ih1 r1 hk, ih2 r2 hrest]
  case _ =>
    intro flds k v rest hfail _ _ r hr
    rcases h1 : convertEntry flds k v with _ | r1
    · simp only [meDataEntries, h1] at hr
      exact Option.noConfusion hr
    · rcases h2 : meDataEntries flds rest with _ | r2
      · simp only [meDataEntries, h1, h2] at hr
        exact Option.noConfusion hr
      · exact (hfail r1 r2 h1 h2).elim
  case _ =>
    intro flds k v hnone r hr
    rw [convertEntry_none flds k v hnone] at hr
    simp only [Option.some.injEq] at hr
    subst hr
    rfl
  case _ =>
    intro flds k v cflds hemb _ ih r hr
    rw [convertEntry_embedded flds k v cflds hemb] at hr
    exact ih r hr
  case _ =>
    intro flds k cflds hlst _ xs r0 hcl ih r hr
    rw [convertEntry_listEmb flds k xs cflds hlst] at hr
    simp only [hcl, Option.some.injEq] at hr
    subst hr
    exact ih r0 hcl
  case _ =>
    intro flds k cflds hlst _ xs hcl _ r hr
    rw [convertEntry_listEmb flds k xs cflds hlst] at hr
    simp only [hcl] at hr
    exact Option.noConfusion hr
  case _ =>
    intro flds k v cflds hlst _ hnl r hr
    rcases v with n | xs | es | a
    · rw [convertEntry_listEmb_nonlist flds k _ cflds hlst (by simp)] at hr; exact Option.noConfusion hr
    · exact absurd rfl (hnl xs)
    · rw [convertEntry_listEmb_nonlist flds k _ cflds hlst (by simp)] at hr; exact Option.noConfusion hr
    · rw [convertEntry_listEmb_nonlist flds k _ cflds hlst (by simp)] at hr; exact Option.noConfusion hr
  case _ =>
    intro flds k v child hne hlst r hr
    rw [convertEntry_listOther flds k v child (fun c h => hne c h) hlst] at hr
    simp only [Option.some.injEq] at hr
    subst hr
    rfl
  case _ =>
    intro flds k cflds hdct _ es r0 hcd ih r hr
    rw [convertEntry_dictEmb flds k es cflds hdct] at hr
    simp only [hcd, Option.some.injEq] at hr
    subst hr
    exact ih r0 hcd
  case _ =>
    intro flds k cflds hdct _ es hcd _ r hr
    rw [convertEntry_dictEmb flds k es cflds hdct] at hr
    simp only [hcd] at hr
    exact Option.noConfusion hr
  case _ =>
    intro flds k v cflds hdct _ hnd r hr
    rcases v with n | xs | es | a
    · rw [convertEntry_dictEmb_nondict flds k _ cflds hdct (by simp)] at hr; exact Option.noConfusion hr
    · rw [convertEntry_dictEmb_nondict flds k _ cflds hdct (by simp)] at hr; exact Option.noConfusion hr
    · exact absurd rfl (hnd es)
    · rw [convertEntry_dictEmb_nondict flds k _ cflds hdct (by simp)] at hr; exact Option.noConfusion hr
  case _ =>
    intro flds k v child hne hdct r hr
    rw [convertEntry_dictOther flds k v child (fun c h => hne c h) hdct] at hr
    simp only [Option.some.injEq] at hr
    subst hr
    rfl
  case _ =>
    intro flds k v hpl r hr
    rw [convertEntry_plain flds k v hpl] at hr
    simp only [Option.some.injEq] at hr
    subst hr
    rfl
  case _ =>
    intro cflds r hr
    simp only [convertDict, Option.some.injEq] at hr
    subst hr
    rfl
  case _ =>
    intro cflds e t r1 r2 ht he ih1 ih2 r hr
    simp only [convertDict, he, ht, Option.some.injEq] at hr
    subst hr
    simp [ih1 r1 he, ih2 r2 ht]
  case _ =>
    intro cflds e t hfail _ _ r hr
    rcases h1 : embRecSave cflds e.2 with _ | r1
    · simp only [convertDict, h1] at hr
      exact Option.noConfusion hr
    · rcases h2 : convertDict cflds t with _ | r2
      · simp only [convertDict, h1, h2] at hr
        exact Option.noConfusion hr
      · exact (hfail r1 r2 h1 h2).elim
  case _ =>
    intro cflds r hr
    simp only [convertList, Option.some.injEq] at hr
    subst hr
    rfl
  case _ =>
    intro cflds x t r1 r2 ht hx ih1 ih2 r hr
    simp only [convertList, hx, ht, Option.some.injEq] at hr
    subst hr
    simp [ih1 r1 hx, ih2 r2 ht]
  case _ =>
    intro cflds x t hfail _ _ r hr
    rcases h1 : embRecSave cflds x with _ | r1
    · simp only [convertList, h1] at hr
      exact Option.noConfusion hr
    · rcases h2 : convertList cflds t with _ | r2
      · simp only [convertList, h1, h2] at hr
        exact Option.noConfusion hr
      · exact (hfail r1 r2 h1 h2).elim

theorem embRecSave_shape (cflds : List (String × SerField)) (v : Val)
    (r : Val × List Attrs) (h : embRecSave cflds v = some r) :
    ∃ es rr, v = Val.vdict es ∧
      recursiveSaveFn cflds EmbeddedDocumentSerializer_saving es none = some rr ∧
      r = (Val.vdoc rr.1, rr.2) := by
  rcases v with n | xs | es | a
  · simp only [embRecSave] at h; exact Option.noConfusion h
  · simp only [embRecSave] at h; exact Option.noConfusion h
  · rcases hrs : recursiveSaveFn cflds EmbeddedDocumentSerializer_saving es none with _ | rr
    · simp only [embRecSave, hrs] at h; exact Option.noConfusion h
    · simp only [embRecSave, hrs, Option.some.injEq] at h
      subst h
      exact ⟨es, rr, rfl, hrs, rfl⟩
  · simp only [embRecSave] at h; exact Option.noConfusion h

theorem meDataEntries_keys (flds : List (String × SerField)) :
    ∀ (validated : List (String × Val)) r,
      meDataEntries flds validated = some r →
      r.1.map Prod.fst = validated.map Prod.fst := by
  intro validated
  induction validated with
  | nil =>
    intro r hr
    simp only [meDataEntries, Option.some.injEq] at hr
    subst hr
    rfl
  | cons p rest ih =>
    obtain ⟨k, v⟩ := p
    intro r hr
    rcases h1 : convertEntry flds k v with _ | r1
    · simp only [meDataEntries, h1] at hr; exact Option.noConfusion hr
    · rcases h2 : meDataEntries flds rest with _ | r2
      · simp only [meDataEntries, h1, h2] at hr; exact Option.noConfusion hr
      · simp only [meDataEntries, h1, h2, Option.some.injEq] at hr
        subst hr
        simp [ih r2 h2]

theorem assocFind_mapSet {α : Type} (d : List (String × α)) (k k2 : String) (v : α) (hne : k2 ≠ k) :
    assocFind (d.map (fun p => cond (p.1 == k) (k, v) p)) k2 = assocFind d k2 := by
  induction d with
  | nil => rfl
  | cons hd t ih =>
    obtain ⟨k1, v1⟩ := hd
    cases hb : (k1 == k) with
    | true =>
      have hk1 : k1 = k := by simpa using hb
      subst hk1
      have hc : (k1 == k2) = false := by
        simp only [beq_eq_false_iff_ne, ne_eq]
        exact fun hh => hne hh.symm
      simp [assocFind, hc, ih]
    | false =>
      cases hb2 : (k1 == k2) with
      | true => simp [assocFind, hb, hb2]
      | false => simp [assocFind, hb, hb2, ih]

theorem assocFind_append_single {α : Type} (d : List (String × α)) (k k2 : String) (v : α) (hne : k2 ≠ k) :
    assocFind (d ++ [(k, v)]) k2 = assocFind d k2 := by
  induction d with
  | nil =>
    have hc : ¬ (k = k2) := fun hh => hne hh.symm
    simp [assocFind, beq_iff_eq, hc]
  | cons hd t ih =>
    obtain ⟨k1, v1⟩ := hd
    by_cases h2 : k1 = k2
    · simp [assocFind, beq_iff_eq, h2]
    · simp [assocFind, beq_iff_eq, h2, ih]

theorem getAttr_setAttr_other (d : Attrs) (k k2 : String) (v : Val) (hne : k2 ≠ k) :
    getAttr (setAttr d k v) k2 = getAttr d k2 := by
  unfold setAttr getAttr
  by_cases hd : assocHas d k
  · simp only [hd, if_true]
    exact assocFind_mapSet d k k2 v hne
  · simp only [hd, Bool.false_eq_true, if_false]
    exact assocFind_append_single d k k2 v hne

theorem getAttr_setAttrs_not_mem (me : Attrs) :
    ∀ (i0 : Attrs) (k : String), k ∉ me.map Prod.fst →
      getAttr (setAttrs i0 me) k = getAttr i0 k := by
  induction me with
  | nil => intro i0 k _; rfl
  | cons p t ih =>
    obtain ⟨k1, v1⟩ := p
    intro i0 k h
    simp only [List.map_cons, List.mem_cons] at h
    push_neg at h
    obtain ⟨h1, h2⟩ := h
    have hstep : setAttrs i0 ((k1, v1) :: t) = setAttrs (setAttr i0 k1 v1) t := rfl
    rw [hstep, ih _ _ h2, getAttr_setAttr_other _ _ _ _ h1]

/-- The per-entry conversion relation that the spec describes for
recursive_save: the output value is the original value for dynamic keys
and non-nesting fields, and the recursive_save image (applied directly,
per element, or per dict value) for embedded-serializer-shaped fields. -/
inductive FieldConv : Option SerField → Val → Val → Prop where
  | dynamicKey (v : Val) : FieldConv none v v
  | plainField (v : Val) : FieldConv (some .plain) v v
  | embField (cflds : List (String × SerField)) (es : List (String × Val))
      (rr : Attrs × List Attrs)
      (h : recursiveSaveFn cflds EmbeddedDocumentSerializer_saving es none = some rr) :
      FieldConv (some (.embedded cflds)) (.vdict es) (.vdoc rr.1)
  | listEmb (cflds : List (String × SerField)) (xs ys : List Val)
      (h : List.Forall₂ (fun x y => ∃ es rr, x = Val.vdict es ∧
        recursiveSaveFn cflds EmbeddedDocumentSerializer_saving es none = some rr ∧
        y = Val.vdoc rr.1) xs ys) :
      FieldConv (some (.listOf (.embedded cflds))) (.vlist xs) (.vlist ys)
  | listOther (c : SerField) (v : Val)
      (h : ∀ cflds, c ≠ .embedded cflds) :
      FieldConv (some (.listOf c)) v v
  | dictEmb (cflds : List (String × SerField)) (es os : List (String × Val))
      (h : List.Forall₂ (fun e o => o.1 = e.1 ∧ ∃ ds rr, e.2 = Val.vdict ds ∧
        recursiveSaveFn cflds EmbeddedDocumentSerializer_saving ds none = some rr ∧
        o.2 = Val.vdoc rr.1) es os) :
      FieldConv (some (.dictOf (.embedded cflds))) (.vdict es) (.vdict os)
  | dictOther (c : SerField) (v : Val)
      (h : ∀ cflds, c ≠ .embedded cflds) :
      FieldConv (some (.dictOf c)) v v

theorem convertList_forall2 (cflds : List (String × SerField)) :
    ∀ (xs : List Val) r, convertList cflds xs = some r →
      List.Forall₂ (fun x y => ∃ es rr, x = Val.vdict es ∧
        recursiveSaveFn cflds EmbeddedDocumentSerializer_saving es none = some rr ∧
        y = Val.vdoc rr.1) xs r.1 := by
  intro xs
  induction xs with
  | nil =>
    intro r hr
    simp only [convertList, Option.some.injEq] at hr
    subst hr
    exact List.Forall₂.nil
  | cons x t ih =>
    intro r hr
    rcases h1 : embRecSave cflds x with _ | r1
    · simp only [convertList, h1] at hr; exact Option.noConfusion hr
    · rcases h2 : convertList cflds t with _ | r2
      · simp only [convertList, h1, h2] at hr; exact Option.noConfusion hr
      · simp only [convertList, h1, h2, Option.some.injEq] at hr
        subst hr
        obtain ⟨es, rr, hv, hrs, hr1⟩ := embRecSave_shape _ _ _ h1
        subst hv
        subst hr1
        exact List.Forall₂.cons ⟨es, rr, rfl, hrs, rfl⟩ (ih r2 h2)

theorem convertDict_forall2 (cflds : List (String × SerField)) :
    ∀ (es : List (String × Val)) r, convertDict cflds es = some r →
      List.Forall₂ (fun e o => o.1 = e.1 ∧ ∃ ds rr, e.2 = Val.vdict ds ∧
        recursiveSaveFn cflds EmbeddedDocumentSerializer_saving ds none = some rr ∧
        o.2 = Val.vdoc rr.1) es r.1 := by
  intro es
  induction es with
  | nil =>
    intro r hr
    simp only [convertDict, Option.some.injEq] at hr
    subst hr
    exact List.Forall₂.nil
  | cons e t ih =>
    intro r hr
    rcases h1 : embRecSave cflds e.2 with _ | r1
    · simp only [convertDict, h1] at hr; exact Option.noConfusion hr
    · rcases h2 : convertDict cflds t with _ | r2
      · simp only [convertDict, h1, h2] at hr; exact Option.noConfusion hr
      · simp only [convertDict, h1, h2, Option.some.injEq] at hr
        subst hr
        obtain ⟨ds, rr, hv, hrs, hr1⟩ := embRecSave_shape _ _ _ h1
        refine List.Forall₂.cons ⟨rfl, ds, rr, hv, hrs, ?_⟩ (ih r2 h2)
        rw [hr1]

theorem convertEntry_fieldConv (flds : List (String × SerField)) (k : String)
    (v : Val) (r : Val × List Attrs) (h : convertEntry flds k v = some r) :
    FieldConv (assocFind flds k) v r.1 := by
  rcases hf : assocFind flds k with _ | f
  · rw [convertEntry_none _ _ _ hf] at h
    simp only [Option.some.injEq] at h
    subst h
    exact .dynamicKey v
  · rcases f with cflds | c | c | _
    · rw [convertEntry_embedded _ _ _ _ hf] at h
      obtain ⟨es, rr, hv, hrs, hr1⟩ := embRecSave_shape _ _ _ h
      subst hv
      subst hr1
      exact .embField cflds es rr hrs
    · rcases c with cflds2 | c2 | c2 | _
      · rcases v with n | xs | es | a
        · rw [convertEntry_listEmb_nonlist _ _ _ _ hf (by simp)] at h
          exact Option.noConfusion h
        · rw [convertEntry_listEmb _ _ _ _ hf] at h
          rcases hcl : convertList cflds2 xs with _ | rl
          · simp only [hcl] at h; exact Option.noConfusion h
          · simp only [hcl, Option.some.injEq] at h
            subst h
            exact .listEmb cflds2 xs rl.1 (convertList_forall2 _ _ _ hcl)
        · rw [convertEntry_listEmb_nonlist _ _ _ _ hf (by simp)] at h
          exact Option.noConfusion h
        · rw [convertEntry_listEmb_nonlist _ _ _ _ hf (by simp)] at h
          exact Option.noConfusion h
      · rw [convertEntry_listOther _ _ _ _ (by intro c hh; cases hh) hf] at h
        simp only [Option.some.injEq] at h
        subst h
        exact .listOther _ v (by intro c hh; cases hh)
      · rw [convertEntry_listOther _ _ _ _ (by intro c hh; cases hh) hf] at h
        simp only [Option.some.injEq] at h
        subst h
        exact .listOther _ v (by intro c hh; cases hh)
      · rw [convertEntry_listOther _ _ _ _ (by intro c hh; cases hh) hf] at h
        simp only [Option.some.injEq] at h
        subst h
        exact .listOther _ v (by intro c hh; cases hh)
    · rcases c with cflds2 | c2 | c2 | _
      · rcases v with n | xs | es | a
        · rw [convertEntry_dictEmb_nondict _ _ _ _ hf (by simp)] at h
          exact Option.noConfusion h
        · rw [convertEntry_dictEmb_nondict _ _ _ _ hf (by simp)] at h
          exact Option.noConfusion h
        · rw [convertEntry_dictEmb _ _ _ _ hf] at h
          rcases hcd : convertDict cflds2 es with _ | rd
          · simp only [hcd] at h; exact Option.noConfusion h
          · simp only [hcd, Option.some.injEq] at h
            subst h
            exact .dictEmb cflds2 es rd.1 (convertDict_forall2 _ _ _ hcd)
        · rw [convertEntry_dictEmb_nondict _ _ _ _ hf (by simp)] at h
          exact Option.noConfusion h
      · rw [convertEntry_dictOther _ _ _ _ (by intro c hh; cases hh) hf] at h
        simp only [Option.some.injEq] at h
        subst h
        exact .dictOther _ v (by intro c hh; cases hh)
      · rw [convertEntry_dictOther _ _ _ _ (by intro c hh; cases hh) hf] at h
        simp only [Option.some.injEq] at h
        subst h
        exact .dictOther _ v (by intro c hh; cases hh)
      · rw [convertEntry_dictOther _ _ _ _ (by intro c hh; cases hh) hf] at h
        simp only [Option.some.injEq] at h
        subst h
        exact .dictOther _ v (by intro c hh; cases hh)
    · rw [convertEntry_plain _ _ _ hf] at h
      simp only [Option.some.injEq] at h
      subst h
      exact .plainField v

/-- C2: recursive_save converts validated data key by key: an
EmbeddedDocumentSerializer field maps to its recursive_save image of the
value; a ListSerializer/ListField with embedded child maps to the list of
the child's recursive_save images in order; a DictField with embedded
child maps to a dict with the same keys and recursively saved values;
every other key, including dynamic keys with no serializer field, maps to
its value unchanged. -/
theorem C2_recursive_save_conversion (flds : List (String × SerField))
    (validated me : List (String × Val)) (saves : List Attrs)
    (h : meDataEntries flds validated = some (me, saves)) :
    List.Forall₂ (fun (p q : String × Val) =>
      q.1 = p.1 ∧ FieldConv (assocFind flds p.1) p.2 q.2) validated me := by
  induction validated generalizing me saves with
  | nil =>
    simp only [meDataEntries, Option.some.injEq, Prod.mk.injEq] at h
    obtain ⟨hme, _⟩ := h
    subst hme
    exact List.Forall₂.nil
  | cons p rest ih =>
    obtain ⟨k, v⟩ := p
    rcases h1 : convertEntry flds k v with _ | r1
    · simp only [meDataEntries, h1] at h
      exact Option.noConfusion h
    · rcases h2 : meDataEntries flds rest with _ | r2
      · simp only [meDataEntries, h1, h2] at h
        exact Option.noConfusion h
      · simp only [meDataEntries, h1, h2, Option.some.injEq, Prod.mk.injEq] at h
        obtain ⟨hme, _⟩ := h
        subst hme
        exact List.Forall₂.cons ⟨rfl, convertEntry_fieldConv flds k v r1 h1⟩
          (ih r2.1 r2.2 h2)

/-- C5: recursive_save with an instance assigns exactly the converted
attributes onto it and leaves every other attribute unchanged; with no
instance it constructs a fresh instance from the converted data; save is
called exactly on the returned instance when `_saving_instances` holds
(true for DocumentSerializer, false for EmbeddedDocumentSerializer) and on
no instance otherwise, and nested embedded saves never happen (the nested
save log is empty). -/
theorem C5_recursive_save_effects (flds : List (String × SerField))
    (saving : Bool) (validated : List (String × Val)) (instOpt : Option Attrs)
    (inst : Attrs) (saves : List Attrs)
    (h : recursiveSaveFn flds saving validated instOpt = some (inst, saves)) :
    ∃ me, meDataEntries flds validated = some (me, []) ∧
      me.map Prod.fst = validated.map Prod.fst ∧
      saves = (if saving then [inst] else []) ∧
      (instOpt = none → inst = me) ∧
      (∀ i0, instOpt = some i0 → inst = setAttrs i0 me ∧
        ∀ k, k ∉ validated.map Prod.fst → getAttr inst k = getAttr i0 k) ∧
      DocumentSerializer_saving = true ∧
      EmbeddedDocumentSerializer_saving = false := by
  rcases hmd : meDataEntries flds validated with _ | r
  · simp only [recursiveSaveFn, hmd] at h
    exact Option.noConfusion h
  · have hs0 : r.2 = [] := meDataEntries_saves _ _ _ hmd
    have hkeys : r.1.map Prod.fst = validated.map Prod.fst :=
      meDataEntries_keys _ _ _ hmd
    rcases instOpt with _ | i0
    · simp only [recursiveSaveFn, hmd, Option.some.injEq, Prod.mk.injEq] at h
      obtain ⟨hinst, hsaves⟩ := h
      subst hinst
      refine ⟨r.1, ?_, hkeys, ?_, fun _ => rfl, ?_, rfl, rfl⟩
      · exact congrArg some (Prod.ext rfl hs0)
      · rw [hs0] at hsaves
        simpa using hsaves.symm
      · intro i0 hcon
        exact Option.noConfusion hcon
    · simp only [recursiveSaveFn, hmd, Option.some.injEq, Prod.mk.injEq] at h
      obtain ⟨hinst, hsaves⟩ := h
      subst hinst
      refine ⟨r.1, ?_, hkeys, ?_, ?_, ?_, rfl, rfl⟩
      · exact congrArg some (Prod.ext rfl hs0)
      · rw [hs0] at hsaves
        simpa using hsaves.symm
      · intro hcon
        exact Option.noConfusion hcon
      · intro i1 hi1
        obtain hi1e : i0 = i1 := by
          injection hi1
        subst hi1e
        refine ⟨rfl, fun k hk => ?_⟩
        apply getAttr_setAttrs_not_mem
        rw [hkeys]
        exact hk

/-! ## raise_errors_on_nested_writes, create, update (lines 25-56, 144-185, 266-271) -/

/-- What raise_errors_on_nested_writes reads from one serializer field:
the bound source, whether the field object is a DRF BaseSerializer,
whether it is an EmbeddedDocumentSerializer, and whether DRF considers it
writable.  The adapter iterates serializer.fields.items() and never
consults writability; the flag is carried to state the claim. -/
structure RawField where
  source : String
  isBaseSer : Bool
  isEmbSer : Bool
  writable : Bool
deriving DecidableEq, Repr

/-- Python `isinstance(value, (list, dict))`. -/
def isListOrDict : Val → Bool
  | .vlist _ => true
  | .vdict _ => true
  | _ => false

/-- The exception kinds the adapter code distinguishes; any other
exception is an opaque payload. -/
inductive PyExc where
  | typeError (msg : String)
  | meValidationError (msg : String)
  | assertionError (msg : String)
  | otherExc (tag : Nat)
deriving DecidableEq, Repr

/-- First assertion of raise_errors_on_nested_writes (lines 27-41): some
field is a BaseSerializer, is not an EmbeddedDocumentSerializer, and its
key has a value in validated_data. -/
def nested_writes_violation1 (fields : List (String × RawField))
    (validated : List (String × Val)) : Bool :=
  fields.any (fun p => p.2.isBaseSer && !p.2.isEmbSer && assocHas validated p.1)

/-- Second assertion of raise_errors_on_nested_writes (lines 43-56): some
field has a dotted source and its key has a list or dict value in
validated_data. -/
def nested_writes_violation2 (fields : List (String × RawField))
    (validated : List (String × Val)) : Bool :=
  fields.any (fun p => strContains p.2.source "." &&
    (match assocFind validated p.1 with
     | some v => isListOrDict v
     | none => false))

/-- `raise_errors_on_nested_writes` (lines 25-56): the AssertionError the
two asserts raise, if any (messages paraphrased). -/
def raise_errors_on_nested_writes (method_name : String)
    (fields : List (String × RawField)) (validated : List (String × Val)) :
    Option PyExc :=
  if nested_writes_violation1 fields validated then
    some (.assertionError ("The ." ++ method_name ++
      "() method does not support writable nested fields by default"))
  else if nested_writes_violation2 fields validated then
    some (.assertionError ("The ." ++ method_name ++
      "() method does not support writable dotted-source fields by default"))
  else none

/-- `DocumentSerializer.create` (lines 144-185), with the outcome of the
self.recursive_save call supplied as a function of the validated data (the
call can raise through the external model constructor and database save):
the nested-writes assertions run first; a TypeError is re-raised as a
TypeError with an explanatory message, a mongoengine ValidationError as a
mongoengine ValidationError with an explanatory message; any other
exception propagates; a successful instance is returned. -/
def createModel (model_name cls_name : String)
    (fields : List (String × RawField)) (validated : List (String × Val))
    (rsave : List (String × Val) → Except PyExc Attrs) : Except PyExc Attrs :=
  match raise_errors_on_nested_writes "create" fields validated with
  | some e => .error e
  | none =>
    match rsave validated with
    | .ok inst => .ok inst
    | .error (.typeError msg) =>
      .error (.typeError ("Got a TypeError when calling " ++ model_name ++
        ".objects.create(). This may be because you have a writable field " ++
        "on the serializer class " ++ cls_name ++
        " that is not a valid argument. Original exception text was: " ++ msg))
    | .error (.meValidationError msg) =>
      .error (.meValidationError ("Got a ValidationError when calling " ++
        model_name ++ ".objects.create(). This may be because request data " ++
        "satisfies serializer validations but not Mongoengine ones (" ++
        cls_name ++ "). Original exception was: " ++ msg))
    | .error e => .error e

/-- `DocumentSerializer.update` (lines 266-271): the nested-writes
assertions run first, then the instance is handed to recursive_save. -/
def updateModel (fields : List (String × RawField)) (inst0 : Attrs)
    (validated : List (String × Val))
    (rsave : List (String × Val) → Attrs → Except PyExc Attrs) :
    Except PyExc Attrs :=
  match raise_errors_on_nested_writes "update" fields validated with
  | some e => .error e
  | none => rsave validated inst0

/-- C7: when the nested-writes check passes, create returns exactly the
instance recursive_save produces; a TypeError from recursive_save is
re-raised as a TypeError with an explanatory message, a mongoengine
ValidationError as a mongoengine ValidationError with an explanatory
message, and every other exception propagates unchanged. -/
theorem C7_create_exceptions (model_name cls_name : String)
    (fields : List (String × RawField)) (validated : List (String × Val))
    (rsave : List (String × Val) → Except PyExc Attrs)
    (hgate : raise_errors_on_nested_writes "create" fields validated = none) :
    (∀ inst, rsave validated = .ok inst →
      createModel model_name cls_name fields validated rsave = .ok inst) ∧
    (∀ msg, rsave validated = .error (.typeError msg) →
      ∃ msg2, createModel model_name cls_name fields validated rsave =
        .error (.typeError msg2)) ∧
    (∀ msg, rsave validated = .error (.meValidationError msg) →
      ∃ msg2, createModel model_name cls_name fields validated rsave =
        .error (.meValidationError msg2)) ∧
    (∀ e, (∀ msg, e ≠ PyExc.typeError msg) →
      (∀ msg, e ≠ PyExc.meValidationError msg) →
      rsave validated = .error e →
      createModel model_name cls_name fields validated rsave = .error e) := by
  refine ⟨?_, ?_, ?_, ?_⟩
  · intro inst hok
    simp only [createModel, hgate, hok]
  · intro msg hte
    simp only [createModel, hgate, hte]
    exact ⟨_, rfl⟩
  · intro msg hve
    simp only [createModel, hgate, hve]
    exact ⟨_, rfl⟩
  · intro e hnt hnv herr
    rcases e with m | m | m | t
    · exact absurd rfl (hnt m)
    · exact absurd rfl (hnv m)
    · simp only [createModel, hgate, herr]
    · simp only [createModel, hgate, herr]

theorem C7_witness :
    createModel "Doc" "DocSer" [] [] (fun _ => Except.ok ([] : Attrs)) =
      .ok ([] : Attrs) :=
  (C7_create_exceptions "Doc" "DocSer" [] [] (fun _ => Except.ok ([] : Attrs))
    rfl).1 [] rfl

/-- C9: create and update fail with an AssertionError, before any instance
is constructed, mutated or saved, whenever validated data holds a value
for a writable nested-serializer field that is not an
EmbeddedDocumentSerializer, or a list/dict value for a field with a dotted
source; serializers whose nested fields are all EmbeddedDocumentSerializers
with dot-free sources pass the check.  The result is an error for every
possible recursive_save behaviour, so no state is touched. -/
theorem C9_nested_writes_guard (fields : List (String × RawField))
    (validated : List (String × Val)) (inst0 : Attrs)
    (model_name cls_name : String) :
    (((∃ k f, (k, f) ∈ fields ∧ f.writable = true ∧ f.isBaseSer = true ∧
        f.isEmbSer = false ∧ assocHas validated k = true) ∨
      (∃ k f v, (k, f) ∈ fields ∧ strContains f.source "." = true ∧
        assocFind validated k = some v ∧ isListOrDict v = true)) →
      (∀ rsave, ∃ m, createModel model_name cls_name fields validated rsave =
        .error (.assertionError m)) ∧
      (∀ rsave2, ∃ m, updateModel fields inst0 validated rsave2 =
        .error (.assertionError m))) ∧
    ((∀ p, p ∈ fields → (p.2.isBaseSer = true → p.2.isEmbSer = true) ∧
        strContains p.2.source "." = false) →
      raise_errors_on_nested_writes "create" fields validated = none ∧
      raise_errors_on_nested_writes "update" fields validated = none) := by
  constructor
  · intro htrig
    have hgate : ∀ mname, ∃ m,
        raise_errors_on_nested_writes mname fields validated =
          some (.assertionError m) := by
      intro mname
      rcases htrig with ⟨k, f, hmem, _, hb, he, hv⟩ | ⟨k, f, v, hmem, hs, hv, hld⟩
      · have h1 : nested_writes_violation1 fields validated = true := by
          rw [nested_writes_violation1, List.any_eq_true]
          exact ⟨(k, f), hmem, by simp [hb, he, hv]⟩
        simp only [raise_errors_on_nested_writes, h1, if_true]
        exact ⟨_, rfl⟩
      · rcases hv1 : nested_writes_violation1 fields validated with _ | _
        · have h2 : nested_writes_violation2 fields validated = true := by
            rw [nested_writes_violation2, List.any_eq_true]
            exact ⟨(k, f), hmem, by simp [hs, hv, hld]⟩
          simp only [raise_errors_on_nested_writes, hv1, h2,
            Bool.false_eq_true, if_false, if_true]
          exact ⟨_, rfl⟩
        · simp only [raise_errors_on_nested_writes, hv1, if_true]
          exact ⟨_, rfl⟩
    constructor
    · intro rsave
      obtain ⟨m, hm⟩ := hgate "create"
      refine ⟨m, ?_⟩
      simp only [createModel, hm]
    · intro rsave2
      obtain ⟨m, hm⟩ := hgate "update"
      refine ⟨m, ?_⟩
      simp only [updateModel, hm]
  · intro hall
    have h1 : nested_writes_violation1 fields validated = false := by
      rw [nested_writes_violation1]
      rw [List.any_eq_false]
      intro p hp
      have := (hall p hp).1
      rcases hb : p.2.isBaseSer with _ | _
      · simp
      · simp [this hb]
    have h2 : nested_writes_violation2 fields validated = false := by
      rw [nested_writes_violation2]
      rw [List.any_eq_false]
      intro p hp
      simp [(hall p hp).2]
    constructor <;>
      simp only [raise_errors_on_nested_writes, h1, h2, Bool.false_eq_true,
        if_false]

theorem C9_witness :
    ∃ m, createModel "Doc" "DocSer"
      [("n", ⟨"n", true, false, true⟩)] [("n", Val.atom 0)]
      (fun _ => Except.ok ([] : Attrs)) = .error (.assertionError m) :=
  ((C9_nested_writes_guard [("n", ⟨"n", true, false, true⟩)]
      [("n", Val.atom 0)] [] "Doc" "DocSer").1
    (Or.inl ⟨"n", ⟨"n", true, false, true⟩, by simp, rfl, rfl, rfl, by
      simp [assocHas, assocFind]⟩)).1 (fun _ => Except.ok ([] : Attrs))

/-! ## get_fields and the uniqueness-constraint deriver (lines 276-343, 498-561) -/

/-- Generic Python dict assignment on an association list. -/
def assocSet {α : Type} (l : List (String × α)) (k : String) (v : α) :
    List (String × α) :=
  if assocHas l k then l.map (fun p => cond (p.1 == k) (k, v) p)
  else l ++ [(k, v)]

/-- Python `dict.update`: assign every binding of `new` into `old`. -/
def kwUpdate (old new : Kwargs) : Kwargs :=
  new.foldl (fun acc p => setKey acc p.1 p.2) old

/-- One entry of `model._meta index_specs`: the unique flag and the
(name, direction) pairs under the fields key; only the name component is
ever read (`e[0]`). -/
structure IndexSpec where
  unique : Bool
  fields : List (String × Int)
deriving DecidableEq, Repr

/-- The document model class as the adapter reads it.  `isAbstract` models
is_abstract_model (utils module, absent from the sources, described by the
spec as detecting abstract models); `info` the get_field_info result;
`attrs` the attribute names visible to hasattr; `mfields` the
model._fields mapping. -/
structure ModelSpec where
  name : String
  isAbstract : Bool
  info : FieldInfo
  attrs : List String
  index_specs : List IndexSpec
  mfields : List (String × ModelField)
deriving DecidableEq, Repr

/-- Remove later duplicates, keeping first occurrences: the
order-irrelevant model of building a Python set from a list. -/
def dedupFirst (l : List String) : List String :=
  l.foldl (fun acc s => if acc.contains s then acc else acc ++ [s]) []

/-- Python set union modelled on first-occurrence-ordered lists. -/
def listUnion (a b : List String) : List String :=
  a ++ b.filter (fun s => !a.contains s)

/-- The single-field and together unique field-name sets accumulated by
get_uniqueness_extra_kwargs (lines 507-520): for every unique index whose
(dedup) field-name set is covered by the serializer field names, the set
goes to the singles when it has one element and to the togethers
otherwise.  Python sets are modelled as duplicate-free lists; all derived
facts are iteration-order independent. -/
def uniqueSets (model : ModelSpec) (field_names : List String) :
    List String × List String :=
  (model.index_specs.filter (fun i => i.unique)).foldl
    (fun acc idx =>
      let field_set := dedupFirst (idx.fields.map (fun e => e.1))
      if field_set.all (fun f => field_names.contains f) then
        if field_set.length == 1 then (listUnion acc.1 field_set, acc.2)
        else (acc.1, listUnion acc.2 field_set)
      else acc)
    ([], [])

/-- The kwargs the together loop assigns for one field (lines 528-533):
the model-field default when it has one, required otherwise; none models
the KeyError when the model has no such field. -/
def together_field_kwargs (model : ModelSpec) (f : String) : Option Kwargs :=
  match assocFind model.mfields f with
  | some fld =>
    match fld.dfault with
    | some d => some [("default", d)]
    | none => some [("required", KVal.kbool true)]
  | none => none

/-- The kwargs the singles loop assigns (lines 522-526). -/
def singleUniqueKwargs (model : ModelSpec) : Kwargs :=
  [("required", KVal.kbool true),
   ("validators", KVal.kvalidators [Validator.unique model.name])]

/-- The uniq_extra_kwargs dict after the singles loop (lines 522-526). -/
def singlesKwargsList (model : ModelSpec) (field_names : List String) :
    List (String × Kwargs) :=
  (uniqueSets model field_names).1.foldl
    (fun acc f => assocSet acc f (singleUniqueKwargs model)) []

/-- The uniq_extra_kwargs dict of get_uniqueness_extra_kwargs
(lines 503-533): the singles loop assigns required plus a UniqueValidator,
then the together loop assigns (overwriting) the default/required kwargs. -/
def uniquenessKwargs (model : ModelSpec) (field_names : List String) :
    Option (List (String × Kwargs)) :=
  (uniqueSets model field_names).2.foldl
    (fun acc f =>
      match acc with
      | none => none
      | some a =>
        match together_field_kwargs model f with
        | some kw => some (assocSet a f kw)
        | none => none)
    (some (singlesKwargsList model field_names))

/-- The merge of uniq_extra_kwargs into extra_kwargs (lines 535-542): an
existing per-field entry is dict-updated, a new one appended.  The inner
branch for a field literally named validators (which would call append on
a dict and raise AttributeError) is not modelled; no theorem concerns a
field of that name. -/
def mergeExtra (extra : List (String × Kwargs)) (uniq : List (String × Kwargs)) :
    List (String × Kwargs) :=
  uniq.foldl
    (fun acc p =>
      match assocFind acc p.1 with
      | some old => assocSet acc p.1 (kwUpdate old p.2)
      | none => acc ++ [p])
    extra

/-- `DocumentSerializer.get_uniqueness_extra_kwargs` (lines 498-544):
derive the uniqueness kwargs and merge them into the given extra kwargs;
hidden_fields stays empty (the code declares it and never fills it). -/
def get_uniqueness_extra_kwargs (model : ModelSpec) (field_names : List String)
    (extra_kwargs : List (String × Kwargs)) :
    Option (List (String × Kwargs) × List (String × Nat)) :=
  match uniquenessKwargs model field_names with
  | none => none
  | some uniq => some (mergeExtra extra_kwargs uniq, [])

/-- `DocumentSerializer.get_unique_together_validators` (lines 546-561):
one UniqueTogetherValidator per unique index whose field-name tuple has
more than one entry and is covered by the serializer field names, over
exactly that tuple (in index order, duplicates kept: the length test here
is on the tuple, unlike the dedup set used for the kwargs). -/
def get_unique_together_validators (model : ModelSpec)
    (field_names : List String) : List Validator :=
  (model.index_specs.filter (fun i => i.unique)).foldl
    (fun acc idx =>
      let field_set := idx.fields.map (fun e => e.1)
      if decide (1 < field_set.length) &&
          field_set.all (fun f => field_names.contains f) then
        acc ++ [Validator.uniqueTogether model.name field_set]
      else acc)
    []

/-- `DocumentSerializer.get_field_names` (lines 340-343): the DRF
base-class result (external, supplied as input) with every name containing
.child filtered out. -/
def get_field_names (superNames : List String) : List String :=
  superNames.filter (fun fn => !(strContains fn ".child"))

/-- One entry of the serializer field mapping built by get_fields: an
explicitly declared field (copied, carried opaquely) or a built one. -/
inductive FieldEntry where
  | declared (tag : Nat)
  | built (f : BuiltField)

/-- Meta attributes of a serializer class.  The outer Option models
attribute presence for getattr defaults; `model` is the attribute value
(None or a model class) when hasModel holds. -/
structure MetaSpec where
  hasModel : Bool
  model : Option ModelSpec
  depthAttr : Option (Option Int)
  depthEmbAttr : Option (Option Int)

/-- A serializer class as get_fields reads it: its optional Meta and its
declared fields (opaque tags). -/
structure SerializerSpec where
  meta : Option MetaSpec
  declared_fields : List (String × Nat)

/-- The observable outcomes of get_fields. -/
inductive GetFieldsResult where
  | assertionError (msg : String)
  | valueError (msg : String)
  | keyError
  | ok (fields : List (String × FieldEntry))

/-- `include_extra_kwargs`.  Modelled from the spec: the DRF base class
merges the per-field extra kwargs into the generated kwargs. -/
def include_extra_kwargs (kw extra : Kwargs) : Kwargs :=
  kwUpdate kw extra

/-- The depth value get_fields works with (getattr default 0, line 287). -/
def depthValue (meta : MetaSpec) : Option Int :=
  match meta.depthAttr with
  | none => some 0
  | some d => d

/-- The depth_embedding value (getattr default 5, line 288). -/
def depthEmbValue (meta : MetaSpec) : Option Int :=
  match meta.depthEmbAttr with
  | none => some 5
  | some d => d

/-- Fold a possibly-None Python depth into the Nat build_field consumes: a
None depth only flows through truthiness tests (where it behaves as 0) and
a decrement guarded by such a test, and the assertions exclude negatives
for the non-None depth. -/
def depthToNat : Option Int → Nat
  | none => 0
  | some dv => dv.toNat

/-- The assertion check on the depth (lines 290-292): the message of the
failing assert, if any. -/
def depthCheck (depth : Option Int) : Option String :=
  match depth with
  | none => none
  | some dv =>
    if dv < 0 then some "depth may not be negative"
    else if 10 < dv then some "depth may not be greater than 10"
    else none

/-- The loop body of get_fields for one field name (lines 316-333): use
the declared field when one exists, otherwise build the field and merge
the extra kwargs in. -/
def fieldsLoopEntry (s : SerializerSpec) (model : ModelSpec) (dN eN : Nat)
    (extra : List (String × Kwargs)) (fn : String) : String × FieldEntry :=
  match assocFind s.declared_fields fn with
  | some tag => (fn, FieldEntry.declared tag)
  | none =>
    let bf := build_field model.info model.attrs fn dN eN
    let ekw := match assocFind extra fn with
      | some e2 => e2
      | none => []
    (fn, FieldEntry.built (.mk bf.cls (include_extra_kwargs bf.kwargs ekw) bf.child))

/-- `DocumentSerializer.get_fields` (lines 276-338): assert Meta and
Meta.model exist; read depth (default 0) and depth_embedding (default 5)
and assert a non-None depth lies in [0, 10]; return the empty mapping for
a None model; reject abstract models; otherwise build one field per
derived field name, preferring declared fields, merging uniqueness extra
kwargs into built fields, and finally add the (always empty) hidden
fields.  The DRF base-class field-name computation and extra-kwargs
reading are external and supplied as superNames and extra0. -/
def get_fields (s : SerializerSpec) (superNames : List String)
    (extra0 : List (String × Kwargs)) : GetFieldsResult :=
  match s.meta with
  | none => .assertionError "missing Meta attribute"
  | some meta =>
    if !meta.hasModel then .assertionError "missing Meta.model attribute"
    else
      match depthCheck (depthValue meta) with
      | some m => .assertionError m
      | none =>
        match meta.model with
        | none => .ok []
        | some model =>
          if model.isAbstract then
            .valueError "Cannot use ModelSerializer with Abstract Models"
          else
            let field_names := get_field_names superNames
            match get_uniqueness_extra_kwargs model field_names extra0 with
            | none => .keyError
            | some extraHidden =>
              (GetFieldsResult.ok
                ((field_names.map
                  (fieldsLoopEntry s model (depthToNat (depthValue meta))
                    (depthToNat (depthEmbValue meta)) extraHidden.1)) ++
                 extraHidden.2.map (fun p => (p.1, FieldEntry.declared p.2))))

/-- The assertions on a non-None depth pass. -/
def depthOk (meta : MetaSpec) : Prop :=
  ∀ dv, depthValue meta = some dv → 0 ≤ dv ∧ dv ≤ 10

/-- C6: get_fields fails with an assertion error when the serializer class
has no Meta, when Meta has no model attribute, or when a non-None depth is
negative or greater than 10; it raises ValueError for an abstract model;
it returns the empty field mapping when Meta.model is None; otherwise it
returns one serializer field per derived field name, preferring an
explicitly declared field over a built one. -/
theorem C6_get_fields_guards (s : SerializerSpec) (superNames : List String)
    (extra0 : List (String × Kwargs)) :
    (s.meta = none → ∃ m, get_fields s superNames extra0 = .assertionError m) ∧
    (∀ meta, s.meta = some meta → meta.hasModel = false →
      ∃ m, get_fields s superNames extra0 = .assertionError m) ∧
    (∀ meta dv, s.meta = some meta → meta.hasModel = true →
      depthValue meta = some dv → (dv < 0 ∨ 10 < dv) →
      ∃ m, get_fields s superNames extra0 = .assertionError m) ∧
    (∀ meta, s.meta = some meta → meta.hasModel = true → depthOk meta →
      meta.model = none → get_fields s superNames extra0 = .ok []) ∧
    (∀ meta model, s.meta = some meta → meta.hasModel = true → depthOk meta →
      meta.model = some model → model.isAbstract = true →
      ∃ m, get_fields s superNames extra0 = .valueError m) ∧
    (∀ meta model extraH, s.meta = some meta → meta.hasModel = true →
      depthOk meta → meta.model = some model → model.isAbstract = false →
      get_uniqueness_extra_kwargs model (get_field_names superNames) extra0 =
        some extraH →
      ∃ flds, get_fields s superNames extra0 = .ok flds ∧
        flds.map Prod.fst = get_field_names superNames ∧
        (∀ fn tag, fn ∈ get_field_names superNames →
          assocFind s.declared_fields fn = some tag →
          (fn, FieldEntry.declared tag) ∈ flds) ∧
        (∀ fn, fn ∈ get_field_names superNames →
          assocFind s.declared_fields fn = none →
          ∃ bf, (fn, FieldEntry.built bf) ∈ flds)) := by
  have hdepthCheckOk : ∀ meta : MetaSpec, depthOk meta →
      depthCheck (depthValue meta) = none := by
    intro meta hok
    rcases hdv : depthValue meta with _ | dv
    · rfl
    · have := hok dv hdv
      have h1 : ¬ (dv < 0) := by omega
      have h2 : ¬ (10 < dv) := by omega
      simp [depthCheck, h1, h2]
  refine ⟨?_, ?_, ?_, ?_, ?_, ?_⟩
  · intro hm
    refine ⟨"missing Meta attribute", ?_⟩
    simp only [get_fields, hm]
  · intro meta hm hnomodel
    refine ⟨"missing Meta.model attribute", ?_⟩
    simp only [get_fields, hm, hnomodel, Bool.not_false, if_true]
  · intro meta dv hm hmodel hdv hbad
    have hchk : depthCheck (depthValue meta) =
        some (if dv < 0 then "depth may not be negative"
          else "depth may not be greater than 10") := by
      simp only [depthCheck, hdv]
      rcases hbad with hlt | hgt
      · simp [hlt]
      · have hge : ¬ (dv < 0) := by omega
        simp [hge, hgt]
    refine ⟨if dv < 0 then "depth may not be negative"
      else "depth may not be greater than 10", ?_⟩
    simp only [get_fields, hm, hmodel, Bool.not_true, Bool.false_eq_true,
      if_false, hchk]
  · intro meta hm hmodel hok hnone
    simp only [get_fields, hm, hmodel, Bool.not_true, Bool.false_eq_true,
      if_false, hdepthCheckOk meta hok, hnone]
  · intro meta model hm hmodel hok hsome habs
    refine ⟨"Cannot use ModelSerializer with Abstract Models", ?_⟩
    simp only [get_fields, hm, hmodel, Bool.not_true, Bool.false_eq_true,
      if_false, hdepthCheckOk meta hok, hsome, habs, if_true]
  · intro meta model extraH hm hmodel hok hsome habs huniq
    have h2 : extraH.2 = [] := by
      rcases hq : uniquenessKwargs model (get_field_names superNames) with _ | uq
      · simp only [get_uniqueness_extra_kwargs, hq] at huniq
        exact Option.noConfusion huniq
      · simp only [get_uniqueness_extra_kwargs, hq, Option.some.injEq] at huniq
        rw [← huniq]
    refine ⟨(get_field_names superNames).map
        (fieldsLoopEntry s model (depthToNat (depthValue meta))
          (depthToNat (depthEmbValue meta)) extraH.1) ++
        extraH.2.map (fun p => (p.1, FieldEntry.declared p.2)),
      ?_, ?_, ?_, ?_⟩
    · simp only [get_fields, hm, hmodel, Bool.not_true, Bool.false_eq_true,
        if_false, hdepthCheckOk meta hok, hsome, habs, if_false, huniq]
    · rw [h2]
      simp only [List.map_nil, List.append_nil, List.map_map]
      have hfst : ∀ fn, (fieldsLoopEntry s model
          (depthToNat (depthValue meta)) (depthToNat (depthEmbValue meta))
          extraH.1 fn).1 = fn := by
        intro fn
        rcases hd : assocFind s.declared_fields fn with _ | tag <;>
          simp [fieldsLoopEntry, hd]
      generalize get_field_names superNames = names
      induction names with
      | nil => rfl
      | cons a t ih => simp [Function.comp, hfst, ih]
    · intro fn tag hfn hdecl
      rw [h2]
      simp only [List.map_nil, List.append_nil, List.mem_map]
      exact ⟨fn, hfn, by simp [fieldsLoopEntry, hdecl]⟩
    · intro fn hfn hdecl
      rw [h2]
      simp only [List.map_nil, List.append_nil, List.mem_map]
      have hb : ∃ bf, fieldsLoopEntry s model (depthToNat (depthValue meta))
          (depthToNat (depthEmbValue meta)) extraH.1 fn =
          (fn, FieldEntry.built bf) := by
        simp only [fieldsLoopEntry, hdecl]
        exact ⟨_, rfl⟩
      obtain ⟨bf, hbf⟩ := hb
      exact ⟨bf, fn, hfn, hbf⟩

theorem C6_witness :
    get_fields ⟨some ⟨true, none, none, none⟩, []⟩ [] [] = .ok [] :=
  (C6_get_fields_guards ⟨some ⟨true, none, none, none⟩, []⟩ [] []).2.2.2.1
    ⟨true, none, none, none⟩ rfl rfl
    (by
      intro dv hdv
      simp [depthValue] at hdv
      omega)
    rfl

/-- C10: the serializer field-name list never contains a name with the
substring .child: get_field_names filters such names out of the base-class
result, every key of a get_fields result is free of the substring, and the
compound-child info entries are consumed inside build_field as the child
of the compound field. -/
theorem C10_child_names_filtered (superNames : List String) :
    (∀ fn, fn ∈ get_field_names superNames → strContains fn ".child" = false) ∧
    (∀ s extra0 flds, get_fields s superNames extra0 = .ok flds →
      ∀ p, p ∈ flds → strContains p.1 ".child" = false) ∧
    (∀ info model_attrs field_name d e mf,
      assocFind info.fields_and_pk field_name = some mf →
      isCompound mf.tp = true →
      (assocHas info.fields (field_name ++ ".child") ||
       assocHas info.embedded (field_name ++ ".child") ||
       assocHas info.references (field_name ++ ".child")) = true →
      build_field info model_attrs field_name d e =
        build_compound_field field_name mf
          (some (build_field info model_attrs (field_name ++ ".child") d e))) := by
  have part1 : ∀ fn, fn ∈ get_field_names superNames →
      strContains fn ".child" = false := by
    intro fn hfn
    rw [get_field_names] at hfn
    have := List.of_mem_filter hfn
    simpa using this
  refine ⟨part1, ?_, ?_⟩
  · intro s extra0 flds h
    rcases hm : s.meta with _ | meta
    · simp only [get_fields, hm] at h
      exact GetFieldsResult.noConfusion h
    · rcases hmo : meta.hasModel with _ | _
      · simp only [get_fields, hm, hmo, Bool.not_false, if_true] at h
        exact GetFieldsResult.noConfusion h
      · rcases hchk : depthCheck (depthValue meta) with _ | m
        · rcases hmod : meta.model with _ | model
          · simp only [get_fields, hm, hmo, Bool.not_true, Bool.false_eq_true,
              if_false, hchk, hmod] at h
            injection h with hfl
            intro p hp
            rw [← hfl] at hp
            simp at hp
          · rcases habs : model.isAbstract with _ | _
            · rcases huq : get_uniqueness_extra_kwargs model
                  (get_field_names superNames) extra0 with _ | extraH
              · simp only [get_fields, hm, hmo, Bool.not_true,
                  Bool.false_eq_true, if_false, hchk, hmod, habs, huq] at h
                exact GetFieldsResult.noConfusion h
              · have h2 : extraH.2 = [] := by
                  rcases hq : uniquenessKwargs model
                      (get_field_names superNames) with _ | uq
                  · simp only [get_uniqueness_extra_kwargs, hq] at huq
                    exact Option.noConfusion huq
                  · simp only [get_uniqueness_extra_kwargs, hq,
                      Option.some.injEq] at huq
                    rw [← huq]
                simp only [get_fields, hm, hmo, Bool.not_true,
                  Bool.false_eq_true, if_false, hchk, hmod, habs, huq, h2,
                  List.map_nil, List.append_nil] at h
                injection h with hflds
                intro p hp
                rw [← hflds] at hp
                obtain ⟨fn, hfn, hpe⟩ := List.mem_map.mp hp
                have hp1 : p.1 = fn := by
                  rw [← hpe]
                  rcases hd : assocFind s.declared_fields fn with _ | tag <;>
                    simp [fieldsLoopEntry, hd]
                rw [hp1]
                exact part1 fn hfn
            · simp only [get_fields, hm, hmo, Bool.not_true,
                Bool.false_eq_true, if_false, hchk, hmod, habs, if_true] at h
              exact GetFieldsResult.noConfusion h
        · simp only [get_fields, hm, hmo, Bool.not_true, Bool.false_eq_true,
            if_false, hchk] at h
          exact GetFieldsResult.noConfusion h
  · intro info model_attrs field_name d e mf hmf hcomp hch
    rw [build_field]
    simp only [hmf, hcomp, if_true, hch, dite_true]

/-- A concrete info with one compound field and its child entry, used by
the build_field witnesses. -/
def winfo : FieldInfo :=
  ⟨"id",
   [("lst", ⟨.ListFieldT, [], none⟩), ("lst.child", ⟨.StringField, [], none⟩)],
   [("lst", ⟨.ListFieldT, [], none⟩), ("lst.child", ⟨.StringField, [], none⟩)],
   [], []⟩

theorem C10_witness :
    build_field winfo [] "lst" 0 5 =
      build_compound_field "lst" ⟨.ListFieldT, [], none⟩
        (some (build_field winfo [] ("lst" ++ ".child") 0 5)) :=
  (C10_child_names_filtered []).2.2 winfo [] "lst" 0 5
    ⟨.ListFieldT, [], none⟩ rfl rfl rfl

/-- C1: build_field dispatches on the extracted field info: a name in
fields_and_pk yields a compound field when the model field is a compound
type (recursing into the .child entry when the info has one) and a
standard primitive field otherwise; a name in references yields a nested
reference serializer when nested_depth is non-zero and a related model
exists, and a flat reference field otherwise; a name in embedded yields a
generic embedded field when there is no related model, a nested embedded
serializer when embedded_depth is non-zero, and a depth-truncated bottom
embedded field when it is zero; any remaining name yields a property
field when the model class has the attribute, and an unknown field
otherwise. -/
theorem C1_build_field_dispatch (info : FieldInfo) (model_attrs : List String)
    (field_name : String) (d e : Nat) :
    (∀ mf, assocFind info.fields_and_pk field_name = some mf →
      (isCompound mf.tp = true →
        ((assocHas info.fields (field_name ++ ".child") ||
          assocHas info.embedded (field_name ++ ".child") ||
          assocHas info.references (field_name ++ ".child")) = true →
          build_field info model_attrs field_name d e =
            build_compound_field field_name mf
              (some (build_field info model_attrs (field_name ++ ".child") d e))) ∧
        ((assocHas info.fields (field_name ++ ".child") ||
          assocHas info.embedded (field_name ++ ".child") ||
          assocHas info.references (field_name ++ ".child")) = false →
          build_field info model_attrs field_name d e =
            build_compound_field field_name mf none)) ∧
      (isCompound mf.tp = false →
        build_field info model_attrs field_name d e =
          BuiltField.mk (build_standard_field field_name mf).1
            (build_standard_field field_name mf).2 none)) ∧
    (assocFind info.fields_and_pk field_name = none →
      (∀ ri, assocFind info.references field_name = some ri →
        ((d ≠ 0 ∧ ri.related_model.isSome = true) →
          build_field info model_attrs field_name d e =
            build_nested_reference_field field_name ri d) ∧
        (¬ (d ≠ 0 ∧ ri.related_model.isSome = true) →
          build_field info model_attrs field_name d e =
            build_reference_field field_name ri d)) ∧
      (assocFind info.references field_name = none →
        (∀ ri, assocFind info.embedded field_name = some ri →
          (ri.related_model = none →
            build_field info model_attrs field_name d e =
              build_generic_embedded_field field_name ri e) ∧
          (ri.related_model ≠ none → e ≠ 0 →
            build_field info model_attrs field_name d e =
              build_nested_embedded_field field_name ri e) ∧
          (ri.related_model ≠ none → e = 0 →
            build_field info model_attrs field_name d e =
              build_bottom_embedded_field field_name ri e)) ∧
        (assocFind info.embedded field_name = none →
          (model_attrs.contains field_name = true →
            build_field info model_attrs field_name d e =
              BuiltField.mk .ReadOnlyField [] none) ∧
          (model_attrs.contains field_name = false →
            build_field info model_attrs field_name d e =
              BuiltField.mk .UnknownField [] none)))) := by
  constructor
  · intro mf hmf
    constructor
    · intro hcomp
      constructor
      · intro hch
        rw [build_field]
        simp only [hmf, hcomp, if_true, hch, dite_true]
      · intro hch
        rw [build_field]
        simp only [hmf, hcomp, if_true, hch, Bool.false_eq_true, dite_false]
    · intro hcomp
      rw [build_field]
      simp only [hmf, hcomp, Bool.false_eq_true, if_false]
  · intro hmf
    constructor
    · intro ri hri
      constructor
      · intro ⟨hd, hrel⟩
        have hc : (d != 0 && ri.related_model.isSome) = true := by
          simp [hd, hrel]
        rw [build_field]
        simp only [hmf, hri, hc, if_true]
      · intro hneg
        have hc : (d != 0 && ri.related_model.isSome) = false := by
          rcases Nat.eq_zero_or_pos d with h0 | hpos
          · simp [h0]
          · have : ¬ ri.related_model.isSome = true := by
              intro hrel
              exact hneg ⟨by omega, hrel⟩
            simp [this]
        rw [build_field]
        simp only [hmf, hri, hc, Bool.false_eq_true, if_false]
    · intro hrefs
      constructor
      · intro ri hri
        refine ⟨?_, ?_, ?_⟩
        · intro hnone
          have hc : ri.related_model.isNone = true := by
            simp [hnone]
          rw [build_field]
          simp only [hmf, hrefs, hri, hc, if_true]
        · intro hsome hne
          have hc : ri.related_model.isNone = false := by
            rcases hr : ri.related_model with _ | m
            · exact absurd hr hsome
            · rfl
          have hce : (e != 0) = true := by
            simp [hne]
          rw [build_field]
          simp only [hmf, hrefs, hri, hc, Bool.false_eq_true, if_false, hce,
            if_true]
        · intro hsome he0
          have hc : ri.related_model.isNone = false := by
            rcases hr : ri.related_model with _ | m
            · exact absurd hr hsome
            · rfl
          have hce : (e != 0) = false := by
            simp [he0]
          rw [build_field]
          simp only [hmf, hrefs, hri, hc, Bool.false_eq_true, if_false, hce]
      · intro hemb
        constructor
        · intro hattr
          rw [build_field]
          simp only [hmf, hrefs, hemb, hattr, if_true]
        · intro hattr
          rw [build_field]
          simp only [hmf, hrefs, hemb, hattr, Bool.false_eq_true, if_false]

theorem C1_witness :
    build_field winfo [] ("lst" ++ ".child") 3 5 =
      BuiltField.mk (build_standard_field ("lst" ++ ".child")
          ⟨.StringField, [], none⟩).1
        (build_standard_field ("lst" ++ ".child") ⟨.StringField, [], none⟩).2
        none :=
  ((C1_build_field_dispatch winfo [] ("lst" ++ ".child") 3 5).1
    ⟨.StringField, [], none⟩ rfl).2 rfl

/-! ## build_standard_field properties (C8) -/

theorem hasKey_popKey_self (kw : Kwargs) (k : String) :
    hasKey (popKey kw k) k = false := by
  induction kw with
  | nil => rfl
  | cons hd t ih =>
    obtain ⟨k1, v1⟩ := hd
    by_cases h1 : k1 = k
    · simpa [popKey, h1] using ih
    · simpa [popKey, hasKey, assocHas, assocFind, h1] using ih

theorem hasKey_popKey_other (kw : Kwargs) (k k2 : String) (hne : k2 ≠ k) :
    hasKey (popKey kw k) k2 = hasKey kw k2 := by
  induction kw with
  | nil => rfl
  | cons hd t ih =>
    obtain ⟨k1, v1⟩ := hd
    by_cases h1 : k1 = k
    · subst h1
      have h2 : ¬ (k1 = k2) := fun hh => hne hh.symm
      simpa [popKey, hasKey, assocHas, assocFind, h2] using ih
    · by_cases h2 : k1 = k2
      · have hcons : popKey ((k1, v1) :: t) k = (k1, v1) :: popKey t k := by
          simp [popKey, h1]
        rw [hcons]
        subst h2
        simp [hasKey, assocHas, assocFind]
      · simpa [popKey, hasKey, assocHas, assocFind, h1, h2] using ih

theorem kwGet_popKey_other (kw : Kwargs) (k k2 : String) (dflt : KVal)
    (hne : k2 ≠ k) : kwGet (popKey kw k) k2 dflt = kwGet kw k2 dflt := by
  induction kw with
  | nil => rfl
  | cons hd t ih =>
    obtain ⟨k1, v1⟩ := hd
    by_cases h1 : k1 = k
    · subst h1
      have h2 : ¬ (k1 = k2) := fun hh => hne hh.symm
      simpa [popKey, kwGet, assocFind, h2] using ih
    · by_cases h2 : k1 = k2
      · have hcons : popKey ((k1, v1) :: t) k = (k1, v1) :: popKey t k := by
          simp [popKey, h1]
        rw [hcons]
        subst h2
        simp [kwGet, assocFind]
      · simpa [popKey, kwGet, assocFind, h1, h2] using ih

theorem hasKey_filter_valid (kw : Kwargs) (valid : List String) (k : String)
    (h : hasKey (kw.filter (fun p => valid.contains p.1)) k = true) :
    valid.contains k = true := by
  induction kw with
  | nil => simp [hasKey, assocHas, assocFind] at h
  | cons hd t ih =>
    obtain ⟨k1, v1⟩ := hd
    by_cases hc : valid.contains k1
    · rw [List.filter_cons_of_pos (by simpa using hc)] at h
      by_cases h1 : k1 = k
      · rwa [← h1]
      · rw [show hasKey (((k1, v1)) :: t.filter (fun p => valid.contains p.1)) k =
            hasKey (t.filter (fun p => valid.contains p.1)) k by
          simp [hasKey, assocHas, assocFind, h1]] at h
        exact ih h
    · rw [List.filter_cons_of_neg (by simpa using hc)] at h
      exact ih h

/-- C8 (amended): build_standard_field post-processing: kwargs containing
choices produce the choice-field class with every kwarg outside the fixed
valid set removed; kwargs containing regex but not choices produce
RegexField (when both are present the choices handling strips regex first,
so the class stays the choice field); a BooleanField with truthy
allow_null becomes NullBooleanField with allow_null and default removed;
allow_blank survives only for CharField-subclass or choice classes; and
model_field survives only for DocumentField subclasses. -/
theorem C8_build_standard_field (field_name : String) (mf : ModelField) :
    (hasKey mf.derivedKwargs "choices" = true →
      ((build_standard_field field_name mf).1 = .ChoiceField ∧
       ∀ k, hasKey (build_standard_field field_name mf).2 k = true →
         choice_valid_kwargs.contains k = true)) ∧
    (hasKey mf.derivedKwargs "choices" = false →
      hasKey mf.derivedKwargs "regex" = true →
      (build_standard_field field_name mf).1 = .RegexField) ∧
    (serializer_field_mapping mf.tp = .BooleanField →
      hasKey mf.derivedKwargs "choices" = false →
      hasKey mf.derivedKwargs "regex" = false →
      truthy (kwGet mf.derivedKwargs "allow_null" (.kbool false)) = true →
      ((build_standard_field field_name mf).1 = .NullBooleanField ∧
       hasKey (build_standard_field field_name mf).2 "allow_null" = false ∧
       hasKey (build_standard_field field_name mf).2 "default" = false)) ∧
    (hasKey (build_standard_field field_name mf).2 "allow_blank" = true →
      (isSubclassOf (build_standard_field field_name mf).1 .CharField = true ∨
       isSubclassOf (build_standard_field field_name mf).1 .ChoiceField = true)) ∧
    (hasKey (build_standard_field field_name mf).2 "model_field" = true →
      isSubclassOf (build_standard_field field_name mf).1 .DocumentField = true) := by
  refine ⟨?_, ?_, ?_, ?_, ?_⟩
  · intro hch
    have hstep1 : bsf_step1 mf = (FieldClass.ChoiceField,
        mf.derivedKwargs.filter (fun p => choice_valid_kwargs.contains p.1)) := by
      simp [bsf_step1, hch]
    have hregexF : hasKey (bsf_step1 mf).2 "regex" = false := by
      rcases hr : hasKey (bsf_step1 mf).2 "regex" with _ | _
      · rfl
      · exfalso
        rw [hstep1] at hr
        have := hasKey_filter_valid _ _ _ hr
        simp [choice_valid_kwargs] at this
    have hcls2 : bsf_cls2 mf = .ChoiceField := by
      rw [bsf_cls2, hregexF]
      simp [hstep1]
    have hkw3 : bsf_kw3 mf = popKey (bsf_step1 mf).2 "model_field" := by
      simp [bsf_kw3, hcls2, isSubclassOf]
    have hkw4 : bsf_kw4 mf = bsf_kw3 mf := by
      simp [bsf_kw4, hcls2, isSubclassOf]
    have hfin : (bsf_cls2 mf == FieldClass.BooleanField &&
        truthy (kwGet (bsf_kw4 mf) "allow_null" (.kbool false))) = false := by
      rw [hcls2]
      rfl
    have hr2 : build_standard_field field_name mf = (bsf_cls2 mf, bsf_kw4 mf) := by
      simp [build_standard_field, hfin]
    rw [hr2]
    refine ⟨hcls2, ?_⟩
    intro k hk
    rw [hkw4, hkw3, hstep1] at hk
    by_cases hkm : k = "model_field"
    · subst hkm
      rw [hasKey_popKey_self] at hk
      exact Bool.noConfusion hk
    · rw [hasKey_popKey_other _ _ _ hkm] at hk
      exact hasKey_filter_valid _ _ _ hk
  · intro hch hre
    have hstep1 : bsf_step1 mf = (serializer_field_mapping mf.tp,
        mf.derivedKwargs) := by
      simp [bsf_step1, hch]
    have hcls2 : bsf_cls2 mf = .RegexField := by
      simp [bsf_cls2, hstep1, hre]
    have hfin : (bsf_cls2 mf == FieldClass.BooleanField &&
        truthy (kwGet (bsf_kw4 mf) "allow_null" (.kbool false))) = false := by
      rw [hcls2]
      rfl
    simp [build_standard_field, hfin, hcls2]
  · intro hbool hch hre hnull
    have hstep1 : bsf_step1 mf = (serializer_field_mapping mf.tp,
        mf.derivedKwargs) := by
      simp [bsf_step1, hch]
    have hcls2 : bsf_cls2 mf = .BooleanField := by
      simp [bsf_cls2, hstep1, hre, hbool]
    have hkw3 : bsf_kw3 mf = popKey mf.derivedKwargs "model_field" := by
      simp [bsf_kw3, hcls2, isSubclassOf, hstep1]
    have hkw4 : bsf_kw4 mf = popKey (bsf_kw3 mf) "allow_blank" := by
      simp [bsf_kw4, hcls2, isSubclassOf]
    have hnull2 : truthy (kwGet (bsf_kw4 mf) "allow_null" (.kbool false)) = true := by
      rw [hkw4, hkw3, kwGet_popKey_other _ _ _ _ (by decide),
        kwGet_popKey_other _ _ _ _ (by decide)]
      exact hnull
    have hfin : (bsf_cls2 mf == FieldClass.BooleanField &&
        truthy (kwGet (bsf_kw4 mf) "allow_null" (.kbool false))) = true := by
      rw [hcls2, hnull2]
      rfl
    have hr2 : build_standard_field field_name mf = (.NullBooleanField,
        popKey (popKey (bsf_kw4 mf) "allow_null") "default") := by
      simp [build_standard_field, hfin]
    rw [hr2]
    refine ⟨rfl, ?_, ?_⟩
    · rw [hasKey_popKey_other _ _ _ (by decide), hasKey_popKey_self]
    · rw [hasKey_popKey_self]
  · intro hab
    rcases hfin : (bsf_cls2 mf == FieldClass.BooleanField &&
        truthy (kwGet (bsf_kw4 mf) "allow_null" (.kbool false))) with _ | _
    · have hr2 : build_standard_field field_name mf =
          (bsf_cls2 mf, bsf_kw4 mf) := by
        simp [build_standard_field, hfin]
      rw [hr2] at hab ⊢
      rcases hcase : (!(isSubclassOf (bsf_cls2 mf) .CharField) &&
          !(isSubclassOf (bsf_cls2 mf) .ChoiceField)) with _ | _
      · rcases Bool.and_eq_false_iff.mp hcase with hc | hc
        · left
          simpa using hc
        · right
          simpa using hc
      · exfalso
        have hk4 : bsf_kw4 mf = popKey (bsf_kw3 mf) "allow_blank" := by
          simp [bsf_kw4, hcase]
        rw [hk4, hasKey_popKey_self] at hab
        exact Bool.noConfusion hab
    · exfalso
      have hcls : (bsf_cls2 mf == FieldClass.BooleanField) = true :=
        (Bool.and_eq_true_iff.mp hfin).1
      have hcls2 : bsf_cls2 mf = .BooleanField := by
        simpa using hcls
      have hcase : (!(isSubclassOf (bsf_cls2 mf) .CharField) &&
          !(isSubclassOf (bsf_cls2 mf) .ChoiceField)) = true := by
        rw [hcls2]
        rfl
      have hk4 : bsf_kw4 mf = popKey (bsf_kw3 mf) "allow_blank" := by
        simp [bsf_kw4, hcase]
      have hr2 : build_standard_field field_name mf = (.NullBooleanField,
          popKey (popKey (bsf_kw4 mf) "allow_null") "default") := by
        simp [build_standard_field, hfin]
      rw [hr2] at hab
      rw [hasKey_popKey_other _ _ _ (by decide),
        hasKey_popKey_other _ _ _ (by decide), hk4, hasKey_popKey_self] at hab
      exact Bool.noConfusion hab
  · intro hmf2
    rcases hfin : (bsf_cls2 mf == FieldClass.BooleanField &&
        truthy (kwGet (bsf_kw4 mf) "allow_null" (.kbool false))) with _ | _
    · have hr2 : build_standard_field field_name mf =
          (bsf_cls2 mf, bsf_kw4 mf) := by
        simp [build_standard_field, hfin]
      rw [hr2] at hmf2 ⊢
      rcases hdf : isSubclassOf (bsf_cls2 mf) .DocumentField with _ | _
      · exfalso
        have hk3 : bsf_kw3 mf = popKey (bsf_step1 mf).2 "model_field" := by
          simp [bsf_kw3, hdf]
        have hmf3 : hasKey (bsf_kw3 mf) "model_field" = false := by
          rw [hk3, hasKey_popKey_self]
        have hmf4 : hasKey (bsf_kw4 mf) "model_field" = false := by
          rcases hcase : (!(isSubclassOf (bsf_cls2 mf) .CharField) &&
              !(isSubclassOf (bsf_cls2 mf) .ChoiceField)) with _ | _
          · rw [show bsf_kw4 mf = bsf_kw3 mf by simp [bsf_kw4, hcase]]
            exact hmf3
          · rw [show bsf_kw4 mf = popKey (bsf_kw3 mf) "allow_blank" by
              simp [bsf_kw4, hcase]]
            rw [hasKey_popKey_other _ _ _ (by decide)]
            exact hmf3
        rw [hmf4] at hmf2
        exact Bool.noConfusion hmf2
      · rfl
    · exfalso
      have hcls : (bsf_cls2 mf == FieldClass.BooleanField) = true :=
        (Bool.and_eq_true_iff.mp hfin).1
      have hcls2 : bsf_cls2 mf = .BooleanField := by
        simpa using hcls
      have hdf : isSubclassOf (bsf_cls2 mf) .DocumentField = false := by
        rw [hcls2]
        rfl
      have hk3 : bsf_kw3 mf = popKey (bsf_step1 mf).2 "model_field" := by
        simp [bsf_kw3, hdf]
      have hcase : (!(isSubclassOf (bsf_cls2 mf) .CharField) &&
          !(isSubclassOf (bsf_cls2 mf) .ChoiceField)) = true := by
        rw [hcls2]
        rfl
      have hk4 : bsf_kw4 mf = popKey (bsf_kw3 mf) "allow_blank" := by
        simp [bsf_kw4, hcase]
      have hr2 : build_standard_field field_name mf = (.NullBooleanField,
          popKey (popKey (bsf_kw4 mf) "allow_null") "default") := by
        simp [build_standard_field, hfin]
      rw [hr2] at hmf2
      rw [hasKey_popKey_other _ _ _ (by decide),
        hasKey_popKey_other _ _ _ (by decide), hk4,
        hasKey_popKey_other _ _ _ (by decide), hk3, hasKey_popKey_self] at hmf2
      exact Bool.noConfusion hmf2

theorem C8_counterexample :
    hasKey (ModelField.mk .StringField
      [("choices", KVal.knat 0), ("regex", KVal.knat 1)] none).derivedKwargs
      "regex" = true ∧
    (build_standard_field "s" (ModelField.mk .StringField
      [("choices", KVal.knat 0), ("regex", KVal.knat 1)] none)).1 ≠
      FieldClass.RegexField := by
  constructor
  · rfl
  · decide

theorem C8_witness :
    (build_standard_field "s" (ModelField.mk .StringField
      [("regex", KVal.knat 1)] none)).1 = FieldClass.RegexField :=
  (C8_build_standard_field "s" (ModelField.mk .StringField
    [("regex", KVal.knat 1)] none)).2.1 rfl rfl

/-! ## Uniqueness-constraint deriver properties (C4) -/

theorem strListContains_iff (l : List String) (a : String) :
    l.contains a = true ↔ a ∈ l := by
  induction l with
  | nil => simp
  | cons h t ih =>
    rcases hb : (a == h) with _ | _
    · have hne : ¬ (a = h) := by simpa using hb
      simp [List.contains_cons, hb, ih, hne]
    · have heq : a = h := by simpa using hb
      simp [List.contains_cons, hb, heq]

theorem assocFind_assocSet_same {α : Type} (l : List (String × α))
    (k : String) (v : α) : assocFind (assocSet l k v) k = some v := by
  unfold assocSet
  rcases hd : assocHas l k with _ | _
  · simp only [Bool.false_eq_true, if_false]
    induction l with
    | nil => simp [assocFind]
    | cons hd2 t ih =>
      obtain ⟨k1, v1⟩ := hd2
      by_cases h1 : k1 = k
      · subst h1
        simp [assocHas, assocFind] at hd
      · have hb : (k1 == k) = false := by simpa using h1
        have ht : assocHas t k = false := by
          simpa [assocHas, assocFind, hb] using hd
        simpa [assocFind, hb] using ih ht
  · simp only [if_true]
    induction l with
    | nil => simp [assocHas, assocFind] at hd
    | cons hd2 t ih =>
      obtain ⟨k1, v1⟩ := hd2
      by_cases h1 : k1 = k
      · subst h1
        simp [assocFind]
      · have hb : (k1 == k) = false := by simpa using h1
        have ht : assocHas t k = true := by
          simpa [assocHas, assocFind, hb] using hd
        simpa [assocFind, hb] using ih ht

theorem assocFind_assocSet_other {α : Type} (l : List (String × α))
    (k k2 : String) (v : α) (hne : k2 ≠ k) :
    assocFind (assocSet l k v) k2 = assocFind l k2 := by
  unfold assocSet
  by_cases hd : assocHas l k
  · simp only [hd, if_true]
    exact assocFind_mapSet l k k2 v hne
  · simp only [hd, Bool.false_eq_true, if_false]
    exact assocFind_append_single l k k2 v hne

theorem foldl_assocSet_lookup {α : Type} (g : String → α) :
    ∀ (fs : List String) (base : List (String × α)) (k : String),
    assocFind (fs.foldl (fun acc f => assocSet acc f (g f)) base) k =
      if fs.contains k then some (g k) else assocFind base k := by
  intro fs
  induction fs with
  | nil => intro base k; simp
  | cons f rest ih =>
    intro base k
    simp only [List.foldl_cons]
    rw [ih]
    by_cases hk : k ∈ rest
    · have hkc : rest.contains k = true := (strListContains_iff _ _).mpr hk
      simp [hkc, hk, List.contains_cons]
    · have hkc : rest.contains k = false := by
        rcases hc2 : rest.contains k with _ | _
        · rfl
        · exact absurd ((strListContains_iff _ _).mp hc2) hk
      by_cases hf : k = f
      · subst hf
        simp [hkc, hk, List.contains_cons, assocFind_assocSet_same]
      · rw [assocFind_assocSet_other _ _ _ _ hf]
        simp [hkc, hk, hf, List.contains_cons]

theorem foldl_opt_assocSet (model : ModelSpec) (tg : String → Kwargs) :
    ∀ (fs : List String) (base : List (String × Kwargs)),
    (∀ f, f ∈ fs → together_field_kwargs model f = some (tg f)) →
    fs.foldl
      (fun acc f =>
        match acc with
        | none => none
        | some a =>
          match together_field_kwargs model f with
          | some kw => some (assocSet a f kw)
          | none => none)
      (some base) =
      some (fs.foldl (fun acc f => assocSet acc f (tg f)) base) := by
  intro fs
  induction fs with
  | nil => intro base _; rfl
  | cons f rest ih =>
    intro base h
    simp only [List.foldl_cons, h f (by simp)]
    exact ih _ (fun f2 h2 => h f2 (by simp [h2]))

theorem listUnion_mem (a b : List String) (f : String) :
    f ∈ listUnion a b ↔ f ∈ a ∨ f ∈ b := by
  unfold listUnion
  constructor
  · intro h
    rcases List.mem_append.mp h with h1 | h2
    · exact Or.inl h1
    · exact Or.inr (List.mem_of_mem_filter h2)
  · intro h
    rcases h with h1 | h2
    · exact List.mem_append_left _ h1
    · by_cases ha : f ∈ a
      · exact List.mem_append_left _ ha
      · refine List.mem_append_right _ (List.mem_filter.mpr ⟨h2, ?_⟩)
        simp only [Bool.not_eq_eq_eq_not, Bool.not_true]
        rcases hc : a.contains f with _ | _
        · rfl
        · exact absurd ((strListContains_iff a f).mp hc) ha

/-- Membership characterization of the two field-name sets accumulated
from the unique indexes. -/
theorem uniqueSets_mem (model : ModelSpec) (field_names : List String)
    (f : String) :
    (f ∈ (uniqueSets model field_names).1 ↔
      ∃ idx, idx ∈ model.index_specs ∧ idx.unique = true ∧
        (dedupFirst (idx.fields.map (fun e => e.1))).all
          (fun x => field_names.contains x) = true ∧
        (dedupFirst (idx.fields.map (fun e => e.1))).length = 1 ∧
        f ∈ dedupFirst (idx.fields.map (fun e => e.1))) ∧
    (f ∈ (uniqueSets model field_names).2 ↔
      ∃ idx, idx ∈ model.index_specs ∧ idx.unique = true ∧
        (dedupFirst (idx.fields.map (fun e => e.1))).all
          (fun x => field_names.contains x) = true ∧
        (dedupFirst (idx.fields.map (fun e => e.1))).length ≠ 1 ∧
        f ∈ dedupFirst (idx.fields.map (fun e => e.1))) := by
  have main : ∀ (l : List IndexSpec) (acc : List String × List String),
      (f ∈ (l.foldl
        (fun acc idx =>
          let field_set := dedupFirst (idx.fields.map (fun e => e.1))
          if field_set.all (fun x => field_names.contains x) then
            if field_set.length == 1 then (listUnion acc.1 field_set, acc.2)
            else (acc.1, listUnion acc.2 field_set)
          else acc)
        acc).1 ↔
        f ∈ acc.1 ∨ ∃ idx, idx ∈ l ∧
          (dedupFirst (idx.fields.map (fun e => e.1))).all
            (fun x => field_names.contains x) = true ∧
          (dedupFirst (idx.fields.map (fun e => e.1))).length = 1 ∧
          f ∈ dedupFirst (idx.fields.map (fun e => e.1))) ∧
      (f ∈ (l.foldl
        (fun acc idx =>
          let field_set := dedupFirst (idx.fields.map (fun e => e.1))
          if field_set.all (fun x => field_names.contains x) then
            if field_set.length == 1 then (listUnion acc.1 field_set, acc.2)
            else (acc.1, listUnion acc.2 field_set)
          else acc)
        acc).2 ↔
        f ∈ acc.2 ∨ ∃ idx, idx ∈ l ∧
          (dedupFirst (idx.fields.map (fun e => e.1))).all
            (fun x => field_names.contains x) = true ∧
          (dedupFirst (idx.fields.map (fun e => e.1))).length ≠ 1 ∧
          f ∈ dedupFirst (idx.fields.map (fun e => e.1))) := by
    intro l
    induction l with
    | nil => intro acc; simp
    | cons idx rest ih =>
      intro acc
      simp only [List.foldl_cons]
      rcases hcov : (dedupFirst (idx.fields.map (fun e => e.1))).all
          (fun x => field_names.contains x) with _ | _
      · simp only [hcov, Bool.false_eq_true, if_false]
        constructor
        · rw [(ih acc).1]
          constructor
          · rintro (h1 | ⟨i2, hi2, hrest⟩)
            · exact Or.inl h1
            · exact Or.inr ⟨i2, by simp [hi2], hrest⟩
          · rintro (h1 | ⟨i2, hi2, hu, hl, hm⟩)
            · exact Or.inl h1
            · rcases List.mem_cons.mp hi2 with he | hm2
              · subst he
                rw [hcov] at hu
                exact Bool.noConfusion hu
              · exact Or.inr ⟨i2, hm2, hu, hl, hm⟩
        · rw [(ih acc).2]
          constructor
          · rintro (h1 | ⟨i2, hi2, hrest⟩)
            · exact Or.inl h1
            · exact Or.inr ⟨i2, by simp [hi2], hrest⟩
          · rintro (h1 | ⟨i2, hi2, hu, hl, hm⟩)
            · exact Or.inl h1
            · rcases List.mem_cons.mp hi2 with he | hm2
              · subst he
                rw [hcov] at hu
                exact Bool.noConfusion hu
              · exact Or.inr ⟨i2, hm2, hu, hl, hm⟩
      · rcases hlen : ((dedupFirst (idx.fields.map (fun e => e.1))).length == 1)
            with _ | _
        · simp only [hcov, if_true, hlen, Bool.false_eq_true, if_false]
          constructor
          · rw [(ih _).1]
            simp only []
            constructor
            · rintro (h1 | ⟨i2, hi2, hrest⟩)
              · exact Or.inl h1
              · exact Or.inr ⟨i2, by simp [hi2], hrest⟩
            · rintro (h1 | ⟨i2, hi2, hu, hl, hm⟩)
              · exact Or.inl h1
              · rcases List.mem_cons.mp hi2 with he | hm2
                · subst he
                  rw [hl] at hlen
                  simp at hlen
                · exact Or.inr ⟨i2, hm2, hu, hl, hm⟩
          · rw [(ih _).2]
            simp only []
            constructor
            · rintro (h1 | ⟨i2, hi2, hrest⟩)
              · rcases (listUnion_mem _ _ _).mp h1 with ha | hb
                · exact Or.inl ha
                · exact Or.inr ⟨idx, by simp, hcov, by simpa using hlen, hb⟩
              · exact Or.inr ⟨i2, by simp [hi2], hrest⟩
            · rintro (h1 | ⟨i2, hi2, hu, hl, hm⟩)
              · exact Or.inl ((listUnion_mem _ _ _).mpr (Or.inl h1))
              · rcases List.mem_cons.mp hi2 with he | hm2
                · subst he
                  exact Or.inl ((listUnion_mem _ _ _).mpr (Or.inr hm))
                · exact Or.inr ⟨i2, hm2, hu, hl, hm⟩
        · simp only [hcov, if_true, hlen, if_true]
          constructor
          · rw [(ih _).1]
            simp only []
            constructor
            · rintro (h1 | ⟨i2, hi2, hrest⟩)
              · rcases (listUnion_mem _ _ _).mp h1 with ha | hb
                · exact Or.inl ha
                · exact Or.inr ⟨idx, by simp, hcov, by simpa using hlen, hb⟩
              · exact Or.inr ⟨i2, by simp [hi2], hrest⟩
            · rintro (h1 | ⟨i2, hi2, hu, hl, hm⟩)
              · exact Or.inl ((listUnion_mem _ _ _).mpr (Or.inl h1))
              · rcases List.mem_cons.mp hi2 with he | hm2
                · subst he
                  exact Or.inl ((listUnion_mem _ _ _).mpr (Or.inr hm))
                · exact Or.inr ⟨i2, hm2, hu, hl, hm⟩
          · rw [(ih _).2]
            simp only []
            constructor
            · rintro (h1 | ⟨i2, hi2, hrest⟩)
              · exact Or.inl h1
              · exact Or.inr ⟨i2, by simp [hi2], hrest⟩
            · rintro (h1 | ⟨i2, hi2, hu, hl, hm⟩)
              · exact Or.inl h1
              · rcases List.mem_cons.mp hi2 with he | hm2
                · subst he
                  exact absurd (by simpa using hlen) hl
                · exact Or.inr ⟨i2, hm2, hu, hl, hm⟩
  have hfilter : ∀ idx : IndexSpec,
      idx ∈ model.index_specs.filter (fun i => i.unique) ↔
        idx ∈ model.index_specs ∧ idx.unique = true := by
    intro idx
    constructor
    · intro h
      exact ⟨List.mem_of_mem_filter h, by simpa using List.of_mem_filter h⟩
    · intro ⟨h1, h2⟩
      exact List.mem_filter.mpr ⟨h1, by simpa using h2⟩
  constructor
  · rw [show (uniqueSets model field_names).1 =
        ((model.index_specs.filter (fun i => i.unique)).foldl
          (fun acc idx =>
            let field_set := dedupFirst (idx.fields.map (fun e => e.1))
            if field_set.all (fun x => field_names.contains x) then
              if field_set.length == 1 then (listUnion acc.1 field_set, acc.2)
              else (acc.1, listUnion acc.2 field_set)
            else acc)
          ([], [])).1 from rfl]
    rw [(main _ _).1]
    simp only [List.not_mem_nil, false_or]
    constructor
    · rintro ⟨i2, hi2, hrest⟩
      exact ⟨i2, (hfilter i2).mp hi2 |>.1, (hfilter i2).mp hi2 |>.2, hrest⟩
    · rintro ⟨i2, hm, hu, hrest⟩
      exact ⟨i2, (hfilter i2).mpr ⟨hm, hu⟩, hrest⟩
  · rw [show (uniqueSets model field_names).2 =
        ((model.index_specs.filter (fun i => i.unique)).foldl
          (fun acc idx =>
            let field_set := dedupFirst (idx.fields.map (fun e => e.1))
            if field_set.all (fun x => field_names.contains x) then
              if field_set.length == 1 then (listUnion acc.1 field_set, acc.2)
              else (acc.1, listUnion acc.2 field_set)
            else acc)
          ([], [])).2 from rfl]
    rw [(main _ _).2]
    simp only [List.not_mem_nil, false_or]
    constructor
    · rintro ⟨i2, hi2, hrest⟩
      exact ⟨i2, (hfilter i2).mp hi2 |>.1, (hfilter i2).mp hi2 |>.2, hrest⟩
    · rintro ⟨i2, hm, hu, hrest⟩
      exact ⟨i2, (hfilter i2).mpr ⟨hm, hu⟩, hrest⟩

/-- The kwargs the together loop assigns for a field that the model has
(the total companion of together_field_kwargs). -/
def togetherKwargsOf (model : ModelSpec) (f : String) : Kwargs :=
  match assocFind model.mfields f with
  | some fld =>
    match fld.dfault with
    | some d => [("default", d)]
    | none => [("required", KVal.kbool true)]
  | none => []

theorem together_field_kwargs_of_has (model : ModelSpec) (f : String)
    (h : assocHas model.mfields f = true) :
    together_field_kwargs model f = some (togetherKwargsOf model f) := by
  rcases hf : assocFind model.mfields f with _ | fld
  · rw [assocHas, hf] at h
    exact Bool.noConfusion h
  · rcases hd : fld.dfault with _ | d <;>
      simp [together_field_kwargs, togetherKwargsOf, hf, hd]

theorem ut_validators_mem (model : ModelSpec) (field_names : List String)
    (v : Validator) :
    v ∈ get_unique_together_validators model field_names ↔
      ∃ idx, idx ∈ model.index_specs ∧ idx.unique = true ∧
        1 < (idx.fields.map (fun e => e.1)).length ∧
        (idx.fields.map (fun e => e.1)).all
          (fun x => field_names.contains x) = true ∧
        v = Validator.uniqueTogether model.name
          (idx.fields.map (fun e => e.1)) := by
  have main : ∀ (l : List IndexSpec) (acc : List Validator),
      v ∈ l.foldl
        (fun acc idx =>
          let field_set := idx.fields.map (fun e => e.1)
          if decide (1 < field_set.length) &&
              field_set.all (fun f => field_names.contains f) then
            acc ++ [Validator.uniqueTogether model.name field_set]
          else acc)
        acc ↔
      v ∈ acc ∨ ∃ idx, idx ∈ l ∧
        1 < (idx.fields.map (fun e => e.1)).length ∧
        (idx.fields.map (fun e => e.1)).all
          (fun x => field_names.contains x) = true ∧
        v = Validator.uniqueTogether model.name
          (idx.fields.map (fun e => e.1)) := by
    intro l
    induction l with
    | nil => intro acc; simp
    | cons idx rest ih =>
      intro acc
      simp only [List.foldl_cons]
      rcases hcond : (decide (1 < (idx.fields.map (fun e => e.1)).length) &&
          (idx.fields.map (fun e => e.1)).all
            (fun f => field_names.contains f)) with _ | _
      · simp only [hcond, Bool.false_eq_true, if_false]
        rw [ih]
        constructor
        · rintro (h1 | ⟨i2, hi2, hrest⟩)
          · exact Or.inl h1
          · exact Or.inr ⟨i2, by simp [hi2], hrest⟩
        · rintro (h1 | ⟨i2, hi2, hlen, hall, hv⟩)
          · exact Or.inl h1
          · rcases List.mem_cons.mp hi2 with he | hm2
            · subst he
              rw [Bool.and_eq_false_iff] at hcond
              rcases hcond with hc | hc
              · exact absurd hlen (by simpa using hc)
              · rw [hall] at hc
                exact Bool.noConfusion hc
            · exact Or.inr ⟨i2, hm2, hlen, hall, hv⟩
      · simp only [hcond, if_true]
        rw [ih]
        constructor
        · rintro (h1 | ⟨i2, hi2, hrest⟩)
          · rcases List.mem_append.mp h1 with ha | hb
            · exact Or.inl ha
            · have hvv : v = Validator.uniqueTogether model.name
                  (idx.fields.map (fun e => e.1)) := by
                simpa using hb
              rw [Bool.and_eq_true_iff] at hcond
              exact Or.inr ⟨idx, by simp, by simpa using hcond.1, hcond.2, hvv⟩
          · exact Or.inr ⟨i2, by simp [hi2], hrest⟩
        · rintro (h1 | ⟨i2, hi2, hlen, hall, hv⟩)
          · exact Or.inl (List.mem_append_left _ h1)
          · rcases List.mem_cons.mp hi2 with he | hm2
            · subst he
              exact Or.inl (List.mem_append_right _ (by simp [hv]))
            · exact Or.inr ⟨i2, hm2, hlen, hall, hv⟩
  rw [show get_unique_together_validators model field_names =
      (model.index_specs.filter (fun i => i.unique)).foldl
        (fun acc idx =>
          let field_set := idx.fields.map (fun e => e.1)
          if decide (1 < field_set.length) &&
              field_set.all (fun f => field_names.contains f) then
            acc ++ [Validator.uniqueTogether model.name field_set]
          else acc)
        [] from rfl]
  rw [main]
  simp only [List.not_mem_nil, false_or]
  constructor
  · rintro ⟨i2, hi2, hrest⟩
    exact ⟨i2, List.mem_of_mem_filter hi2,
      by simpa using List.of_mem_filter hi2, hrest⟩
  · rintro ⟨i2, hm, hu, hrest⟩
    exact ⟨i2, List.mem_filter.mpr ⟨hm, by simpa using hu⟩, hrest⟩

/-- C4 (amended): for unique indexes whose (dedup) field-name sets are
covered by the serializer field names, a single-field index makes its
field required and attaches a UniqueValidator, unless the field also
belongs to a covered multi-field index, in which case the multi-field
assignment (the model-field default when there is one, required
otherwise) replaces the single-field kwargs; each covered multi-field
index contributes a UniqueTogetherValidator over exactly its field-name
tuple; fields in no covered unique index receive no kwargs, and uncovered
indexes contribute neither kwargs nor validators. -/
theorem C4_uniqueness_deriver (model : ModelSpec) (field_names : List String)
    (htg : ∀ f, f ∈ (uniqueSets model field_names).2 →
      assocHas model.mfields f = true) :
    ∃ uniq, uniquenessKwargs model field_names = some uniq ∧
      (∀ f mfld, f ∈ (uniqueSets model field_names).2 →
        assocFind model.mfields f = some mfld →
        assocFind uniq f = some (match mfld.dfault with
          | some dv => [("default", dv)]
          | none => [("required", KVal.kbool true)])) ∧
      (∀ f, f ∈ (uniqueSets model field_names).1 →
        f ∉ (uniqueSets model field_names).2 →
        assocFind uniq f = some [("required", KVal.kbool true),
          ("validators", KVal.kvalidators [Validator.unique model.name])]) ∧
      (∀ f, f ∉ (uniqueSets model field_names).1 →
        f ∉ (uniqueSets model field_names).2 →
        assocFind uniq f = none) ∧
      (∀ f, (f ∈ (uniqueSets model field_names).1 ↔
        ∃ idx, idx ∈ model.index_specs ∧ idx.unique = true ∧
          (dedupFirst (idx.fields.map (fun e => e.1))).all
            (fun x => field_names.contains x) = true ∧
          (dedupFirst (idx.fields.map (fun e => e.1))).length = 1 ∧
          f ∈ dedupFirst (idx.fields.map (fun e => e.1)))) ∧
      (∀ f, (f ∈ (uniqueSets model field_names).2 ↔
        ∃ idx, idx ∈ model.index_specs ∧ idx.unique = true ∧
          (dedupFirst (idx.fields.map (fun e => e.1))).all
            (fun x => field_names.contains x) = true ∧
          (dedupFirst (idx.fields.map (fun e => e.1))).length ≠ 1 ∧
          f ∈ dedupFirst (idx.fields.map (fun e => e.1)))) ∧
      (∀ v, v ∈ get_unique_together_validators model field_names ↔
        ∃ idx, idx ∈ model.index_specs ∧ idx.unique = true ∧
          1 < (idx.fields.map (fun e => e.1)).length ∧
          (idx.fields.map (fun e => e.1)).all
            (fun x => field_names.contains x) = true ∧
          v = Validator.uniqueTogether model.name
            (idx.fields.map (fun e => e.1))) := by
  have huniq : uniquenessKwargs model field_names =
      some ((uniqueSets model field_names).2.foldl
        (fun acc f => assocSet acc f (togetherKwargsOf model f))
        (singlesKwargsList model field_names)) := by
    rw [uniquenessKwargs]
    exact foldl_opt_assocSet model (togetherKwargsOf model) _ _
      (fun f hf => together_field_kwargs_of_has model f (htg f hf))
  have hlookup : ∀ f, assocFind ((uniqueSets model field_names).2.foldl
      (fun acc f => assocSet acc f (togetherKwargsOf model f))
      (singlesKwargsList model field_names)) f =
      if (uniqueSets model field_names).2.contains f then
        some (togetherKwargsOf model f)
      else if (uniqueSets model field_names).1.contains f then
        some (singleUniqueKwargs model)
      else none := by
    intro f
    rw [foldl_assocSet_lookup]
    rcases h2 : (uniqueSets model field_names).2.contains f with _ | _
    · simp only [h2, Bool.false_eq_true, if_false]
      rw [show singlesKwargsList model field_names =
        (uniqueSets model field_names).1.foldl
          (fun acc f => assocSet acc f
            ((fun _ => singleUniqueKwargs model) f)) [] from rfl]
      rw [foldl_assocSet_lookup]
      rcases h1 : (uniqueSets model field_names).1.contains f with _ | _
      · simp [h1, assocFind]
      · simp [h1]
    · simp [h2]
  refine ⟨_, huniq, ?_, ?_, ?_, ?_, ?_, ?_⟩
  · intro f mfld hf hmfld
    rw [hlookup f, if_pos ((strListContains_iff _ _).mpr hf)]
    simp [togetherKwargsOf, hmfld]
  · intro f hf1 hf2
    have hc2 : (uniqueSets model field_names).2.contains f = false := by
      rcases hc : (uniqueSets model field_names).2.contains f with _ | _
      · rfl
      · exact absurd ((strListContains_iff _ _).mp hc) hf2
    rw [hlookup f]
    simp only [hc2, Bool.false_eq_true, if_false,
      if_pos ((strListContains_iff _ _).mpr hf1)]
    rfl
  · intro f hf1 hf2
    have hc1 : (uniqueSets model field_names).1.contains f = false := by
      rcases hc : (uniqueSets model field_names).1.contains f with _ | _
      · rfl
      · exact absurd ((strListContains_iff _ _).mp hc) hf1
    have hc2 : (uniqueSets model field_names).2.contains f = false := by
      rcases hc : (uniqueSets model field_names).2.contains f with _ | _
      · rfl
      · exact absurd ((strListContains_iff _ _).mp hc) hf2
    rw [hlookup f]
    simp [hf1, hf2]
  · intro f
    exact (uniqueSets_mem model field_names f).1
  · intro f
    exact (uniqueSets_mem model field_names f).2
  · intro v
    exact ut_validators_mem model field_names v

/-- The model of the C4 counterexample and witness: one covered
single-field unique index on a, one covered two-field unique index on
(a, b), fields a and b without defaults. -/
def C4model : ModelSpec :=
  ⟨"M", false, ⟨"id", [], [], [], []⟩, [],
   [⟨true, [("a", 1)]⟩, ⟨true, [("a", 1), ("b", 1)]⟩],
   [("a", ⟨.StringField, [], none⟩), ("b", ⟨.StringField, [], none⟩)]⟩

theorem C4_counterexample :
    (⟨true, [("a", 1)]⟩ : IndexSpec) ∈ C4model.index_specs ∧
    (["a", "b"] : List String).contains "a" = true ∧
    uniquenessKwargs C4model ["a", "b"] =
      some [("a", [("required", KVal.kbool true)]),
            ("b", [("required", KVal.kbool true)])] ∧
    hasKey [("required", KVal.kbool true)] "validators" = false := by
  refine ⟨by simp [C4model], rfl, rfl, rfl⟩

theorem C4_witness :
    ∃ uniq, uniquenessKwargs C4model ["a", "b"] = some uniq ∧
      assocFind uniq "a" = some [("required", KVal.kbool true)] := by
  obtain ⟨uniq, huniq, htogether, _⟩ :=
    C4_uniqueness_deriver C4model ["a", "b"] (by decide)
  refine ⟨uniq, huniq, ?_⟩
  have := htogether "a" ⟨.StringField, [], none⟩ (by decide) (by decide)
  simpa using this

/-! ## Witnesses for the recursive_save claims -/

/-- Concrete serializer fields for the recursive_save witnesses: one
embedded serializer field and otherwise dynamic data. -/
def wFlds : List (String × SerField) := [("e", .embedded [("x", .plain)])]

/-- Concrete validated data for the recursive_save witnesses. -/
def wValidated : List (String × Val) :=
  [("e", .vdict [("x", .atom 1)]), ("d", .atom 2)]

theorem C2_witness :
    List.Forall₂ (fun (p q : String × Val) =>
      q.1 = p.1 ∧ FieldConv (assocFind wFlds p.1) p.2 q.2) wValidated
      [("e", .vdoc [("x", .atom 1)]), ("d", .atom 2)] :=
  C2_recursive_save_conversion wFlds wValidated
    [("e", .vdoc [("x", .atom 1)]), ("d", .atom 2)] []
    (by
      simp [meDataEntries, convertEntry, embRecSave, recursiveSaveFn,
        convertList, convertDict, assocFind, wFlds, wValidated,
        EmbeddedDocumentSerializer_saving])

theorem C5_witness :
    ∃ me, meDataEntries wFlds wValidated = some (me, []) ∧
      me.map Prod.fst = wValidated.map Prod.fst ∧
      [[("z", Val.atom 9), ("d", Val.atom 2), ("e", Val.vdoc [("x", Val.atom 1)])]] =
        (if true then [[("z", Val.atom 9), ("d", Val.atom 2),
          ("e", Val.vdoc [("x", Val.atom 1)])]] else []) ∧
      ((some [("z", Val.atom 9), ("d", Val.atom 0)] : Option Attrs) = none →
        [("z", Val.atom 9), ("d", Val.atom 2),
          ("e", Val.vdoc [("x", Val.atom 1)])] = me) ∧
      (∀ i0, (some [("z", Val.atom 9), ("d", Val.atom 0)] : Option Attrs) =
          some i0 →
        [("z", Val.atom 9), ("d", Val.atom 2),
          ("e", Val.vdoc [("x", Val.atom 1)])] = setAttrs i0 me ∧
        ∀ k, k ∉ wValidated.map Prod.fst →
          getAttr [("z", Val.atom 9), ("d", Val.atom 2),
            ("e", Val.vdoc [("x", Val.atom 1)])] k = getAttr i0 k) ∧
      DocumentSerializer_saving = true ∧
      EmbeddedDocumentSerializer_saving = false :=
  C5_recursive_save_effects wFlds true wValidated
    (some [("z", Val.atom 9), ("d", Val.atom 0)])
    [("z", Val.atom 9), ("d", Val.atom 2), ("e", Val.vdoc [("x", Val.atom 1)])]
    [[("z", Val.atom 9), ("d", Val.atom 2), ("e", Val.vdoc [("x", Val.atom 1)])]]
    (by
      simp [meDataEntries, convertEntry, embRecSave, recursiveSaveFn,
        convertList, convertDict, assocFind, wFlds, wValidated,
        EmbeddedDocumentSerializer_saving, setAttrs, setAttr, assocHas])

/-! ## Depth-limited nested-serializer expansion (C3) -/

/-- A document model visible to nested serializer generation: its
extracted field info and its hasattr attribute names. -/
structure ModelEntry where
  info : FieldInfo
  attrs : List String

/-- The module scope mapping model names to models; a self-referential
model names itself. -/
abbrev Registry := List (String × ModelEntry)

/-- The serializer field tree obtained when DRF recursively binds the
generated fields: plain fields are leaves, compound fields carry an
optional child subtree, nested serializers carry their own field trees. -/
inductive STree where
  | leaf (cls : FieldClass)
  | compound (cls : FieldClass) (child : Option STree)
  | nested (fields : List (String × STree))

/-- The default field names of a generated nested serializer
(get_default_field_names, lines 345-352 and 579-586: the embedded variant
skips the pk) filtered by get_field_names; generated nested classes have
no declared fields. -/
def serNames (info : FieldInfo) (skipPk : Bool) : List String :=
  get_field_names ((if skipPk then [] else [info.pkName]) ++
    info.fields.map (fun p => p.1) ++ info.references.map (fun p => p.1) ++
    info.embedded.map (fun p => p.1))

mutual

/-- Eager expansion of one built serializer field into its bound tree:
build_field dispatch with the two nested-serializer cases expanded
through their generated Meta (a nested reference serializer gets depth
nested_depth - 1 and the getattr default depth_embedding 5; a nested
embedded serializer gets depth_embedding embedded_depth - 1 and the
getattr default depth 0). -/
def expandField (reg : Registry) (info : FieldInfo) (model_attrs : List String)
    (field_name : String) (d e : Nat) : STree :=
  match assocFind info.fields_and_pk field_name with
  | some mf =>
    if isCompound mf.tp then
      let child_name := field_name ++ ".child"
      if h : assocHas info.fields child_name || assocHas info.embedded child_name ||
          assocHas info.references child_name then
        have hlt : maxNameLen info + 1 -
            (field_name.length + ".child".length) <
            maxNameLen info + 1 - field_name.length := by
          have h6 : ".child".length = 6 := rfl
          have hmem : (field_name ++ ".child") ∈ infoNames info := by
            simp only [assocHas, Bool.or_eq_true, Option.isSome_iff_exists] at h
            simp only [infoNames, List.mem_append]
            rcases h with (⟨a, ha⟩ | ⟨a, ha⟩) | ⟨a, ha⟩ <;>
              · have := assocFind_mem _ _ _ ha
                tauto
          have hle := len_le_maxNameLen info _ hmem
          rw [String.length_append, h6] at hle
          rw [h6]
          omega
        .compound (build_compound_field field_name mf none).cls
          (some (expandField reg info model_attrs child_name d e))
      else
        .compound (build_compound_field field_name mf none).cls none
    else .leaf (build_standard_field field_name mf).1
  | none =>
    match assocFind info.references field_name with
    | some ri =>
      if hnd : d ≠ 0 ∧ ri.related_model.isSome = true then
        match ri.related_model with
        | some m =>
          match assocFind reg m with
          | some ent =>
            .nested (expandFields reg ent.info ent.attrs
              (serNames ent.info false) (d - 1) 5)
          | none => .nested []
        | none => .nested []
      else .leaf (build_reference_field field_name ri d).cls
    | none =>
      match assocFind info.embedded field_name with
      | some ri =>
        if ri.related_model.isNone then .leaf .GenericEmbeddedDocumentField
        else if he : e ≠ 0 then
          match ri.related_model with
          | some m =>
            match assocFind reg m with
            | some ent =>
              .nested (expandFields reg ent.info ent.attrs
                (serNames ent.info true) 0 (e - 1))
            | none => .nested []
          | none => .nested []
        else .leaf .HiddenField
      | none =>
        if model_attrs.contains field_name then .leaf .ReadOnlyField
        else .leaf .UnknownField
termination_by (6 * d + e, maxNameLen info + 1 - field_name.length, 0)

/-- The field loop of a nested serializer binding: one tree per name. -/
def expandFields (reg : Registry) (info : FieldInfo) (model_attrs : List String)
    (names : List String) (d e : Nat) : List (String × STree) :=
  match names with
  | [] => []
  | n :: t =>
    (n, expandField reg info model_attrs n d e) ::
      expandFields reg info model_attrs t d e
termination_by (6 * d + e, maxNameLen info + 2, names.length)

end

mutual

/-- Nested-serializer nesting depth of a field tree: compound children
stay at the same serializer level, nested nodes add one. -/
def serDepth : STree → Nat
  | .leaf _ => 0
  | .compound _ none => 0
  | .compound _ (some t) => serDepth t
  | .nested l => 1 + serDepthList l

def serDepthList : List (String × STree) → Nat
  | [] => 0
  | p :: t => max (serDepth p.2) (serDepthList t)

end

theorem expandField_serDepth_le :
    ∀ (n : Nat), ∀ (d e : Nat), 6 * d + e ≤ n →
    ∀ (B : Nat), ∀ (reg : Registry) (info : FieldInfo)
      (model_attrs : List String) (fn : String),
      maxNameLen info + 1 - fn.length ≤ B →
      serDepth (expandField reg info model_attrs fn d e) ≤ 6 * d + e := by
  intro n
  induction n using Nat.strong_induction_on with
  | _ n ihn =>
    intro d e hde B
    induction B using Nat.strong_induction_on with
    | _ B ihB =>
      intro reg info model_attrs fn hB
      rw [expandField]
      split
      · -- fields_and_pk hit
        rename_i mf hmf
        split
        · -- compound
          dsimp only
          split
          · -- child exists
            rename_i hcomp hch
            have h6 : ".child".length = 6 := rfl
            have hmem : (fn ++ ".child") ∈ infoNames info := by
              simp only [assocHas, Bool.or_eq_true,
                Option.isSome_iff_exists] at hch
              simp only [infoNames, List.mem_append]
              rcases hch with (⟨a, ha⟩ | ⟨a, ha⟩) | ⟨a, ha⟩ <;>
                · have := assocFind_mem _ _ _ ha
                  tauto
            have hle := len_le_maxNameLen info _ hmem
            rw [String.length_append, h6] at hle
            have hlt : maxNameLen info + 1 - (fn ++ ".child").length < B := by
              rw [String.length_append, h6]
              omega
            have := ihB _ hlt reg info model_attrs (fn ++ ".child") (le_refl _)
            simpa [serDepth] using this
          · simp [serDepth]
        · simp [serDepth]
      · -- references hit
        split
        · -- references dispatch
          rename_i ri hri
          split
          · -- nested reference
            rename_i hnd
            have hd0 : d ≠ 0 := hnd.1
            split
            · rename_i m hrm
              split
              · rename_i ent hent
                have hfld : ∀ fn2, serDepth (expandField reg ent.info ent.attrs
                    fn2 (d - 1) 5) ≤ 6 * (d - 1) + 5 := by
                  intro fn2
                  exact ihn (6 * (d - 1) + 5) (by omega) (d - 1) 5 (le_refl _)
                    (maxNameLen ent.info + 1) reg ent.info ent.attrs fn2
                    (by omega)
                have hlst : ∀ names, serDepthList (expandFields reg ent.info
                    ent.attrs names (d - 1) 5) ≤ 6 * (d - 1) + 5 := by
                  intro names
                  induction names with
                  | nil => simp [expandFields, serDepthList]
                  | cons a t iht =>
                    rw [expandFields]
                    rw [serDepthList]
                    exact max_le (hfld a) iht
                rw [serDepth]
                have := hlst (serNames ent.info false)
                omega
              · rw [serDepth, serDepthList]
                omega
            · rw [serDepth, serDepthList]
              omega
          · simp [serDepth]
        · -- embedded or property
          split
          · rename_i ri hri
            split
            · simp [serDepth]
            · split
              · rename_i hgen he
                split
                · rename_i m hrm
                  split
                  · rename_i ent hent
                    have hfld : ∀ fn2, serDepth (expandField reg ent.info
                        ent.attrs fn2 0 (e - 1)) ≤ 6 * 0 + (e - 1) := by
                      intro fn2
                      exact ihn (6 * 0 + (e - 1)) (by omega) 0 (e - 1)
                        (le_refl _) (maxNameLen ent.info + 1) reg ent.info
                        ent.attrs fn2 (by omega)
                    have hlst : ∀ names, serDepthList (expandFields reg
                        ent.info ent.attrs names 0 (e - 1)) ≤
                        6 * 0 + (e - 1) := by
                      intro names
                      induction names with
                      | nil => simp [expandFields, serDepthList]
                      | cons a t iht =>
                        rw [expandFields]
                        rw [serDepthList]
                        exact max_le (hfld a) iht
                    rw [serDepth]
                    have := hlst (serNames ent.info true)
                    omega
                  · rw [serDepth, serDepthList]
                    omega
                · rw [serDepth, serDepthList]
                  omega
              · simp [serDepth]
          · split <;> simp [serDepth]

/-- C3: expansion strictly decreases the remaining depth budget: a nested
reference serializer is built with Meta depth nested_depth - 1 and a
nested embedded serializer with Meta depth_embedding embedded_depth - 1;
at zero nested depth a reference collapses to the flat ReferenceField and
at zero embedded depth an embedded field collapses to the HiddenField
placeholder with default None; consequently the recursively bound
serializer field tree of any model registry, including self-referential
ones, has nested-serializer depth at most 6 * depth + depth_embedding. -/
theorem C3_depth_budget :
    (∀ (fn : String) (ri : RelationInfo) (d : Nat),
      (build_nested_reference_field fn ri d).cls =
        .NestedReferenceSerializer ri.related_model (d - 1)) ∧
    (∀ (fn : String) (ri : RelationInfo) (e : Nat),
      (build_nested_embedded_field fn ri e).cls =
        .EmbeddedSerializer ri.related_model (e - 1)) ∧
    (∀ (info : FieldInfo) (model_attrs : List String) (fn : String)
        (ri : RelationInfo) (e : Nat),
      assocFind info.fields_and_pk fn = none →
      assocFind info.references fn = some ri →
      build_field info model_attrs fn 0 e = build_reference_field fn ri 0) ∧
    (∀ (fn : String) (ri : RelationInfo), ri.related_model.isSome = true →
      (build_reference_field fn ri 0).cls = .ReferenceField) ∧
    (∀ (info : FieldInfo) (model_attrs : List String) (fn : String)
        (ri : RelationInfo) (d : Nat),
      assocFind info.fields_and_pk fn = none →
      assocFind info.references fn = none →
      assocFind info.embedded fn = some ri →
      ri.related_model.isNone = false →
      build_field info model_attrs fn d 0 = build_bottom_embedded_field fn ri 0) ∧
    (∀ (fn : String) (ri : RelationInfo) (e : Nat),
      (build_bottom_embedded_field fn ri e).cls = .HiddenField ∧
      assocFind (build_bottom_embedded_field fn ri e).kwargs "default" =
        some KVal.knone) ∧
    (∀ (reg : Registry) (info : FieldInfo) (model_attrs : List String)
        (fn : String) (d e : Nat),
      serDepth (expandField reg info model_attrs fn d e) ≤ 6 * d + e) := by
  refine ⟨?_, ?_, ?_, ?_, ?_, ?_, ?_⟩
  · intro fn ri d
    rfl
  · intro fn ri e
    rfl
  · intro info model_attrs fn ri e hmf hri
    rw [build_field]
    simp only [hmf, hri]
    rfl
  · intro fn ri hrel
    rcases hr : ri.related_model with _ | m
    · rw [hr] at hrel
      simp at hrel
    · simp [build_reference_field, hr, BuiltField.cls]
  · intro info model_attrs fn ri d hmf hrefs hemb hnone
    rw [build_field]
    simp only [hmf, hrefs, hemb, hnone, Bool.false_eq_true, if_false]
    rfl
  · intro fn ri e
    constructor
    · rfl
    · show assocFind (setKey ri.nestedEmbKwargs "default" KVal.knone)
        "default" = some KVal.knone
      exact assocFind_assocSet_same ri.nestedEmbKwargs "default" KVal.knone
  · intro reg info model_attrs fn d e
    exact expandField_serDepth_le (6 * d + e) d e (le_refl _)
      (maxNameLen info + 1) reg info model_attrs fn (by omega)

/-- A self-referential registry for the C3 witness. -/
def wreg : Registry :=
  [("M", ⟨⟨"id", [], [], [("self", ⟨some "M", [], [], [], []⟩)], []⟩, []⟩)]

theorem C3_witness :
    serDepth (expandField wreg
      ⟨"id", [], [], [("self", ⟨some "M", [], [], [], []⟩)], []⟩ [] "self" 3 5) ≤
      6 * 3 + 5 :=
  C3_depth_budget.2.2.2.2.2.2 wreg
    ⟨"id", [], [], [("self", ⟨some "M", [], [], [], []⟩)], []⟩ [] "self" 3 5

end RfMongo
